import Mathlib

/-!
Verification development for the code-intelligence graph engine of
`backend/app/dev_chat.py` (classes `CodeParser`, `CodeWatcher`,
`DevChatInterpreter`).

The Python source is shallowly embedded: every definition below is a
translation of a function or data shape of the source file.  CPython
library behaviour that the source relies on (the `ast` module's node
shapes and `ast.walk` breadth-first traversal, `dict` insertion order,
`networkx.DiGraph`, the chromadb collection, regular-expression search
for the literal patterns the source uses) is modelled at the interface
level, as explained at each definition.  Python exceptions are modelled
with `Except String`; a `try/except` block in the source becomes a
`match` on the `Except` value at the same place.
-/

namespace DevChat

/-! ## The Python AST, as produced by `ast.parse`

Only the node kinds the source inspects are distinguished
(`Import`, `ImportFrom`, `ClassDef`, `FunctionDef`, `Expr`, `Pass`,
`Name`, `Attribute`, `Call`, string `Constant`); any other statement
or expression is an opaque node carrying its child nodes, which is all
`ast.walk` needs. -/

/-- `ast.alias`: one name of an `import`/`from ... import` statement. -/
structure PyAlias where
  name : String
  asname : Option String
deriving DecidableEq, Repr

/-- Python expressions (`ast.expr`).  `constant` carries `some s` for a
string constant (the docstring case) and `none` for any other constant. -/
inductive PyExpr where
  | name (id : String) (lineno : Nat)
  | attribute (value : PyExpr) (attr : String) (lineno : Nat)
  | call (func : PyExpr) (args : List PyExpr) (lineno : Nat)
  | constant (strVal : Option String) (lineno : Nat)
  | otherExpr (children : List PyExpr) (lineno : Nat)
deriving Repr

/-- `ast.arg`: a formal parameter, with optional annotation
(`arg.annotation`) expression. -/
structure PyArg where
  arg : String
  anno : Option PyExpr
deriving Repr

/-- Python statements (`ast.stmt`).  `otherStmt` stands for any
statement kind the source does not match on (`If`, `While`, ...),
keeping its child expressions and statements for the walk. -/
inductive PyStmt where
  | importStmt (names : List PyAlias) (lineno : Nat)
  | importFrom (module : Option String) (names : List PyAlias) (lineno : Nat)
  | classDef (name : String) (bases : List PyExpr) (body : List PyStmt) (lineno : Nat)
  | functionDef (name : String) (args : List PyArg) (body : List PyStmt) (lineno : Nat)
  | exprStmt (value : PyExpr) (lineno : Nat)
  | passStmt (lineno : Nat)
  | otherStmt (exprChildren : List PyExpr) (stmtChildren : List PyStmt) (lineno : Nat)
deriving Repr

/-- A node of the walked tree: `ast.walk` yields statements,
expressions, `alias` nodes, `arguments`/`arg` nodes and the `Module`
root uniformly. -/
inductive PyNode where
  | moduleN (body : List PyStmt)
  | stmtN (s : PyStmt)
  | exprN (e : PyExpr)
  | aliasN (a : PyAlias)
  | argumentsN (args : List PyArg)
  | argN (a : PyArg)
deriving Repr

/-- `ast.iter_child_nodes`, in `_fields` order, restricted to the node
kinds of the model (context nodes such as `Load` are omitted; no
extractor matches them and they do not change the relative order of the
nodes that are matched). -/
def PyNode.children : PyNode → List PyNode
  | .moduleN body => body.map .stmtN
  | .stmtN (.importStmt names _) => names.map .aliasN
  | .stmtN (.importFrom _ names _) => names.map .aliasN
  | .stmtN (.classDef _ bases body _) => bases.map .exprN ++ body.map .stmtN
  | .stmtN (.functionDef _ args body _) => .argumentsN args :: body.map .stmtN
  | .stmtN (.exprStmt v _) => [.exprN v]
  | .stmtN (.passStmt _) => []
  | .stmtN (.otherStmt es ss _) => es.map .exprN ++ ss.map .stmtN
  | .exprN (.name _ _) => []
  | .exprN (.attribute v _ _) => [.exprN v]
  | .exprN (.call f args _) => .exprN f :: args.map .exprN
  | .exprN (.constant _ _) => []
  | .exprN (.otherExpr cs _) => cs.map .exprN
  | .aliasN _ => []
  | .argumentsN args => args.map .argN
  | .argN a => (a.anno.map (fun e => [PyNode.exprN e])).getD []

mutual
/-- Number of walked nodes inside an expression (the expression itself
included). -/
def szExpr : PyExpr → Nat
  | .name _ _ => 1
  | .attribute v _ _ => szExpr v + 1
  | .call f args _ => szExpr f + szExprList args + 1
  | .constant _ _ => 1
  | .otherExpr cs _ => szExprList cs + 1

/-- Total walked-node count of a list of expressions. -/
def szExprList : List PyExpr → Nat
  | [] => 0
  | e :: es => szExpr e + szExprList es
end

/-- Walked nodes of a parameter: the `arg` node plus its annotation. -/
def szArg (a : PyArg) : Nat :=
  match a.anno with
  | some e => szExpr e + 1
  | none => 1

/-- Total walked-node count of a parameter list. -/
def szArgList : List PyArg → Nat
  | [] => 0
  | a :: as_ => szArg a + szArgList as_

mutual
/-- Number of walked nodes inside a statement (itself included):
`alias` nodes, the `arguments` node, parameters, annotations and all
nested statements/expressions each count once. -/
def szStmt : PyStmt → Nat
  | .importStmt names _ => names.length + 1
  | .importFrom _ names _ => names.length + 1
  | .classDef _ bases body _ => szExprList bases + szStmtList body + 1
  | .functionDef _ args body _ => szArgList args + szStmtList body + 2
  | .exprStmt v _ => szExpr v + 1
  | .passStmt _ => 1
  | .otherStmt es ss _ => szExprList es + szStmtList ss + 1

/-- Total walked-node count of a statement list. -/
def szStmtList : List PyStmt → Nat
  | [] => 0
  | s :: ss => szStmt s + szStmtList ss
end

/-- The queue loop of `ast.walk` (pop the head, enqueue its children at
the back, yield the popped node), with fuel.  Each step pops exactly one
node, so any fuel at least the number of nodes of the tree reproduces
the full breadth-first order. -/
def walkQ : Nat → List PyNode → List PyNode
  | 0, _ => []
  | _ + 1, [] => []
  | fuel + 1, n :: rest => n :: walkQ fuel (rest ++ n.children)

/-- `ast.walk(tree)` for a parsed module: breadth-first order, root
first.  The fuel `szStmtList body + 1` equals the exact number of nodes
the walk yields, so it never runs out. -/
def walkModule (body : List PyStmt) : List PyNode :=
  walkQ (szStmtList body + 1) [PyNode.moduleN body]

/-! ## The structural record (`CodeParser.parse_file` result) -/

/-- One entry of the `imports` list: `{'type': 'import', ...}` or
`{'type': 'importfrom', ...}` (the `asname` argument is the dict's
`'alias'` value). -/
inductive ImportInfo where
  | imp (name : String) (asname : Option String)
  | impFrom (module : Option String) (name : String) (asname : Option String)
deriving DecidableEq, Repr

/-- One entry of a function's `args` list (`_extract_function_args`):
name plus optional string type hint. -/
structure ArgInfo where
  name : String
  typeHint : Option String
deriving DecidableEq, Repr

/-- One entry of the `functions` list or of a class's `methods` list. -/
structure FuncInfo where
  name : String
  lineno : Nat
  args : List ArgInfo
  docstring : Option String
deriving DecidableEq, Repr

/-- One entry of the `classes` list. -/
structure ClassInfo where
  name : String
  lineno : Nat
  bases : List String
  methods : List FuncInfo
  docstring : Option String
deriving DecidableEq, Repr

/-- One entry of the `function_calls` list. -/
structure CallInfo where
  name : String
  lineno : Nat
deriving DecidableEq, Repr

/-- The successful `parse_file` dictionary. -/
structure ParsedRecord where
  path : String
  imports : List ImportInfo
  classes : List ClassInfo
  functions : List FuncInfo
  function_calls : List CallInfo
  content : String
deriving DecidableEq, Repr

/-- A `parse_file` result: the full record, or the `except` branch's
`{'path': ..., 'error': str(e)}` record. -/
inductive FileRecord where
  | ok (r : ParsedRecord)
  | err (path : String) (error : String)
deriving DecidableEq, Repr

/-- `file_info.get('imports', [])`: an error record has no such key. -/
def FileRecord.importsOf : FileRecord → List ImportInfo
  | .ok r => r.imports
  | .err _ _ => []

/-- `file_info.get('classes', [])`. -/
def FileRecord.classesOf : FileRecord → List ClassInfo
  | .ok r => r.classes
  | .err _ _ => []

/-- `file_info.get('functions', [])`. -/
def FileRecord.functionsOf : FileRecord → List FuncInfo
  | .ok r => r.functions
  | .err _ _ => []

/-- `file_info.get('function_calls', [])`. -/
def FileRecord.callsOf : FileRecord → List CallInfo
  | .ok r => r.function_calls
  | .err _ _ => []

/-- `file_info.get('content', '')`. -/
def FileRecord.contentOf : FileRecord → String
  | .ok r => r.content
  | .err _ _ => ""

/-! ## The extraction walk (`CodeParser` methods) -/

/-- `CodeParser._get_attribute_full_name`: climb the `Attribute` chain,
append the base `Name` if there is one, and join with dots.  The
recursion mirrors the source's while-loop (attributes collected
outermost-first, then reversed). -/
def getAttributeFullName : PyExpr → String
  | e => String.intercalate "." (attrParts e)
where
  attrParts : PyExpr → List String
    | .attribute v a _ => attrParts v ++ [a]
    | .name id _ => [id]
    | _ => []

/-- `CodeParser._extract_imports`: collect `Import`/`ImportFrom`
entries over the walk. -/
def extract_imports (nodes : List PyNode) : List ImportInfo :=
  nodes.foldl
    (fun acc n =>
      match n with
      | .stmtN (.importStmt names _) =>
          acc ++ names.map (fun a => ImportInfo.imp a.name a.asname)
      | .stmtN (.importFrom m names _) =>
          acc ++ names.map (fun a => ImportInfo.impFrom m a.name a.asname)
      | _ => acc)
    []

/-- `CodeParser._extract_function_args`: parameter names with a string
type hint when the annotation is a `Name` or `Attribute`. -/
def extract_function_args (args : List PyArg) : List ArgInfo :=
  args.map fun a =>
    match a.anno with
    | some (.name id _) => { name := a.arg, typeHint := some id }
    | some (.attribute v at_ l) =>
        { name := a.arg, typeHint := some (getAttributeFullName (.attribute v at_ l)) }
    | _ => { name := a.arg, typeHint := none }

/-- `ast.get_docstring(node)`: the leading string-constant expression
statement of a body, if any.  (The stdlib also normalises whitespace
with `inspect.cleandoc`; that normalisation is not modelled, and no
claim depends on it.) -/
def get_docstring : List PyStmt → Option String
  | .exprStmt (.constant (some s) _) _ :: _ => some s
  | _ => none

/-- `CodeParser._extract_classes`: for every `ClassDef` of the walk,
base names (`Name` id, or dotted form for an `Attribute`), the methods
of the immediate body, and the docstring. -/
def extract_classes (nodes : List PyNode) : List ClassInfo :=
  nodes.foldl
    (fun acc n =>
      match n with
      | .stmtN (.classDef name bases body lineno) =>
          let baseNames := bases.foldl
            (fun bs b =>
              match b with
              | .name id _ => bs ++ [id]
              | .attribute v a l => bs ++ [getAttributeFullName (.attribute v a l)]
              | _ => bs)
            []
          let methods := body.foldl
            (fun ms item =>
              match item with
              | .functionDef mname margs mbody mline =>
                  ms ++ [{ name := mname, lineno := mline,
                           args := extract_function_args margs,
                           docstring := get_docstring mbody : FuncInfo }]
              | _ => ms)
            []
          acc ++ [{ name := name, lineno := lineno, bases := baseNames,
                    methods := methods, docstring := get_docstring body : ClassInfo }]
      | _ => acc)
    []

/-- Reading `node.parent` on a walked node.  CPython `ast` nodes carry
no `parent` attribute and `ast.parse` never sets one (nothing in the
repository sets it either), so the attribute access raises
`AttributeError` — for the only node kind on which the source performs
this access, a `FunctionDef`. -/
def PyNode.parentAttr (_n : PyNode) : Except String PyNode :=
  .error "\x27FunctionDef\x27 object has no attribute \x27parent\x27"

/-- Whether a node is an `ast.ClassDef` (the `isinstance` test applied
to `node.parent`). -/
def PyNode.isClassDefNode : PyNode → Bool
  | .stmtN (.classDef _ _ _ _) => true
  | _ => false

/-- `CodeParser._extract_functions`: for every `FunctionDef` of the
walk whose `parent` is not a `ClassDef`, record the function.  The
`node.parent` access raises, so the fold fails at the first
`FunctionDef` it meets. -/
def extract_functions (nodes : List PyNode) : Except String (List FuncInfo) :=
  nodes.foldlM
    (fun acc n =>
      match n with
      | .stmtN (.functionDef fname fargs fbody fline) => do
          let p ← PyNode.parentAttr (.stmtN (.functionDef fname fargs fbody fline))
          if p.isClassDefNode then
            pure acc
          else
            pure (acc ++ [{ name := fname, lineno := fline,
                            args := extract_function_args fargs,
                            docstring := get_docstring fbody : FuncInfo }])
      | _ => pure acc)
    []

/-- `CodeParser._extract_function_calls`: every `Call` whose function
is a bare `Name` or an `Attribute` (recorded as its dotted path). -/
def extract_function_calls (nodes : List PyNode) : List CallInfo :=
  nodes.foldl
    (fun acc n =>
      match n with
      | .exprN (.call (.name id _) _ lineno) =>
          acc ++ [{ name := id, lineno := lineno }]
      | .exprN (.call (.attribute v a l) _ lineno) =>
          acc ++ [{ name := getAttributeFullName (.attribute v a l), lineno := lineno }]
      | _ => acc)
    []

/-- `CodeParser.parse_file`.  `src` is the outcome of
`open(file_path).read()` followed by `ast.parse(content)`: `.error` for
an unreadable file or a syntax error (carrying `str(e)`), `.ok` with the
raw text and the parsed module body otherwise.  Any exception raised by
the extraction (in particular the `node.parent` access) is caught by the
same `try` and becomes the error record. -/
def parse_file (file_path : String) (src : Except String (String × List PyStmt)) :
    FileRecord :=
  match src with
  | .error e => .err file_path e
  | .ok (content, body) =>
      let nodes := walkModule body
      let imports := extract_imports nodes
      let classes := extract_classes nodes
      match extract_functions nodes with
      | .error e => .err file_path e
      | .ok functions =>
          .ok { path := file_path, imports := imports, classes := classes,
                functions := functions,
                function_calls := extract_function_calls nodes,
                content := content }

/-! ## Small string helpers used to model the source's string tests

These are structurally recursive over the character lists, mirroring
the Python string operations the source uses. -/

/-- Occurrence of `pat` as a substring of the given character list. -/
def occursL (pat : List Char) : List Char → Bool
  | [] => pat.isEmpty
  | c :: rest => List.isPrefixOf pat (c :: rest) || occursL pat rest

/-- `pat in s` / `re.search` for a literal pattern: the pattern occurs
as a substring. -/
def strContains (s pat : String) : Bool :=
  occursL pat.data s.data

/-- `s.endswith(post)`. -/
def strEndsWith (s post : String) : Bool :=
  List.isPrefixOf post.data.reverse s.data.reverse

/-- `s.startswith(pre)`. -/
def strBeginsWith (s pre : String) : Bool :=
  List.isPrefixOf pre.data s.data

/-- `s.lower()` (ASCII; every input the claims exercise is ASCII). -/
def strToLower (s : String) : String :=
  String.mk (s.data.map Char.toLower)

/-- `s.replace(c, r)` for one-character arguments — the only form the
source uses (`imported_module.replace('.', '/')`), on which Python's
general substring replace coincides with a character map. -/
def charReplace (s : String) (c r : Char) : String :=
  String.mk (s.data.map (fun x => if x == c then r else x))

/-- `c in s` for a character (the `'.' in called_function` test). -/
def strHasChar (s : String) (c : Char) : Bool :=
  s.data.contains c

/-- `s.split('.')[0]`: the characters before the first dot. -/
def headPart (s : String) : String :=
  String.mk (s.data.takeWhile (fun x => x != '.'))

/-! ## The engine state (`DevChatInterpreter` fields)

`file_info` models the Python `dict` as an insertion-ordered
association list with unique keys (`d[k] = v` updates in place or
appends, `del d[k]` removes).  `graph` models the `networkx.DiGraph`:
at most one edge per ordered node pair, `add_edge` inserting missing
endpoint nodes and overwriting the `type` attribute of an existing
edge, `remove_node` dropping the node and the edges incident to it.
`vec` models the chromadb collection as the list of its entries (the
wall-clock `last_updated` metadata value is not modelled). -/

/-- A directed edge with its `type` attribute. -/
structure GEdge where
  src : String
  tgt : String
  typ : String
deriving DecidableEq, Repr

/-- The `networkx.DiGraph` underlying `self.code_graph` (node
attributes are never read back by the engine and are not modelled). -/
structure Graph where
  nodes : List String
  edges : List GEdge
deriving DecidableEq, Repr

/-- `graph.add_node`: append if absent. -/
def Graph.addNode (g : Graph) (n : String) : Graph :=
  if g.nodes.contains n then g else { g with nodes := g.nodes ++ [n] }

/-- Edge insertion on the edge list: overwrite the `type` of an
existing `(src, tgt)` edge, else append. -/
def edgeUpd (es : List GEdge) (u v t : String) : List GEdge :=
  if es.any (fun e => e.src == u && e.tgt == v) then
    es.map (fun e => if e.src == u && e.tgt == v then { e with typ := t } else e)
  else es ++ [⟨u, v, t⟩]

/-- `graph.add_edge(u, v, type=t)`. -/
def Graph.addEdge (g : Graph) (u v t : String) : Graph :=
  { nodes := ((g.addNode u).addNode v).nodes, edges := edgeUpd g.edges u v t }

/-- `graph.remove_node(n)`: the node and every incident edge go. -/
def Graph.removeNode (g : Graph) (n : String) : Graph :=
  { nodes := g.nodes.filter (fun m => m ≠ n),
    edges := g.edges.filter (fun e => e.src ≠ n ∧ e.tgt ≠ n) }

/-- The metadata of a vector entry (`'type'`, identifying fields). -/
inductive VMeta where
  | fileMeta (path : String)
  | classMeta (name : String) (file : String) (lineno : Nat)
  | funcMeta (name : String) (file : String) (lineno : Nat)
deriving DecidableEq, Repr

/-- One entry of the `code_embeddings` collection. -/
structure VecEntry where
  id : String
  document : String
  meta : VMeta
deriving DecidableEq, Repr

/-- One row of a `collection.query` reply (already per-query, i.e. the
`[0]`-indexed inner lists).  Distances are kept abstract as integers;
no claim concerns their values. -/
structure QueryReply where
  ids : List String
  documents : List String
  metadatas : List VMeta
  distances : Option (List Int)
deriving Repr

/-- One element of the list `search_code` returns. -/
structure SearchHit where
  id : String
  document : String
  meta : VMeta
  score : Option Int
deriving DecidableEq, Repr

/-- The behaviour of the external embedding provider behind the
chromadb collection: whether embedding the document of a given id
raises (`collection.add`), and the outcome of `collection.query`.
Local reads and deletes of the collection do not call the provider and
never raise. -/
structure VectorBackend where
  addOutcome : String → Option String
  queryOutcome : Except String QueryReply

/-- The engine state: `project_root`, `file_info`, `code_graph` and
the vector collection. -/
structure EngineState where
  root : String
  file_info : List (String × FileRecord)
  graph : Graph
  vec : List VecEntry
deriving Repr

/-- `os.path.relpath(p, root)` for a path lying under `root` (the only
case the watcher produces); for other paths the path is returned
unchanged, which is adequate because no claim depends on upward
(`../`) relative paths. -/
def relpathM (root p : String) : String :=
  if strBeginsWith p (root ++ "/") then String.mk (p.data.drop (root ++ "/").data.length)
  else p

/-- `d[k] = v` on the insertion-ordered dict. -/
def dictSet (d : List (String × FileRecord)) (k : String) (v : FileRecord) :
    List (String × FileRecord) :=
  if d.any (fun p => p.1 == k) then
    d.map (fun p => if p.1 == k then (k, v) else p)
  else d ++ [(k, v)]

/-- `del d[k]` (guarded by `if k in d` in the source). -/
def dictDel (d : List (String × FileRecord)) (k : String) :
    List (String × FileRecord) :=
  d.filter (fun p => p.1 ≠ k)

/-! ## The vector-database adapter (`_add_to_vector_db`, `remove_file`
vector part, `search_code`) -/

/-- `x or default` for the docstring fields: `None` and the empty
string are falsy. -/
def orDefault (d : Option String) (dflt : String) : String :=
  match d with
  | some s => if s == "" then dflt else s
  | none => dflt

/-- One import line of the file summary (a `None` module renders as
the string `"None"`, as a Python f-string does). -/
def importLine : ImportInfo → String
  | .imp n al =>
      "  import " ++ n ++ (match al with | some a => " as " ++ a | none => "") ++ "\n"
  | .impFrom m n al =>
      "  from " ++ (match m with | some s => s | none => "None") ++ " import " ++ n
        ++ (match al with | some a => " as " ++ a | none => "") ++ "\n"

/-- The class lines of the file summary. -/
def classLines (c : ClassInfo) : String :=
  "  class " ++ c.name
    ++ (if c.bases.isEmpty then "" else "(" ++ String.intercalate ", " c.bases ++ ")")
    ++ "\n"
    ++ (match c.docstring with
        | some d => if d == "" then "" else "    \"" ++ d ++ "\"\n"
        | none => "")

/-- Rendering of one argument in the summary (`name` or `name: type`). -/
def argStr (a : ArgInfo) : String :=
  match a.typeHint with
  | some t => a.name ++ ": " ++ t
  | none => a.name

/-- The function lines of the file summary. -/
def funcLines (f : FuncInfo) : String :=
  "  def " ++ f.name ++ "(" ++ String.intercalate ", " (f.args.map argStr) ++ ")\n"
    ++ (match f.docstring with
        | some d => if d == "" then "" else "    \"" ++ d ++ "\"\n"
        | none => "")

/-- The deterministic structural summary `_add_to_vector_db` embeds
for the file id. -/
def buildSummary (rel_path : String) (fi : FileRecord) : String :=
  "File: " ++ rel_path ++ "\n"
    ++ (if fi.importsOf.isEmpty then "" else
          "Imports:\n" ++ String.join (fi.importsOf.map importLine))
    ++ (if fi.classesOf.isEmpty then "" else
          "Classes:\n" ++ String.join (fi.classesOf.map classLines))
    ++ (if fi.functionsOf.isEmpty then "" else
          "Functions:\n" ++ String.join (fi.functionsOf.map funcLines))

/-- The sequence of `collection.add` calls of `_add_to_vector_db`,
stopping at the first raising call: entries added so far persist, the
error is the raised exception. -/
def vecAddSeq (be : VectorBackend) (vec : List VecEntry) :
    List (String × String × VMeta) → List VecEntry × Option String
  | [] => (vec, none)
  | (id_, doc, m) :: rest =>
      match be.addOutcome id_ with
      | some e => (vec, some e)
      | none => vecAddSeq be (vec ++ [⟨id_, doc, m⟩]) rest

/-- `DevChatInterpreter._add_to_vector_db`: under `if content:`, add
the file summary, then one entry per class, then one per function; the
surrounding `try/except` swallows any raise (the error is only
printed), keeping the entries added before the failure. -/
def add_to_vector_db (be : VectorBackend) (vec : List VecEntry)
    (rel_path : String) (fi : FileRecord) : List VecEntry :=
  if fi.contentOf == "" then vec
  else
    let items :=
      (rel_path, buildSummary rel_path fi, VMeta.fileMeta rel_path)
        :: fi.classesOf.map (fun c =>
            (rel_path ++ ":class:" ++ c.name,
             orDefault c.docstring ("Class " ++ c.name ++ " in " ++ rel_path),
             VMeta.classMeta c.name rel_path c.lineno))
        ++ fi.functionsOf.map (fun f =>
            (rel_path ++ ":function:" ++ f.name,
             orDefault f.docstring ("Function " ++ f.name ++ " in " ++ rel_path),
             VMeta.funcMeta f.name rel_path f.lineno))
    (vecAddSeq be vec items).1

/-- `DevChatInterpreter.add_file`: parse, store under the relative
path, add the file node, and upsert into the vector collection.  `fs`
is the read+`ast.parse` outcome per absolute path (the filesystem is
external to the engine). -/
def add_file (be : VectorBackend) (fs : String → Except String (String × List PyStmt))
    (st : EngineState) (file_path : String) : EngineState :=
  let fi := parse_file file_path (fs file_path)
  let rel := relpathM st.root file_path
  { st with
    file_info := dictSet st.file_info rel fi,
    graph := st.graph.addNode rel,
    vec := add_to_vector_db be st.vec rel fi }

/-- `DevChatInterpreter.remove_file`: drop the dict entry, remove the
file node (with its incident edges) when present, and delete the
vector entries with id `rel` or id starting with `rel ++ ":"`.  The
collection deletes are local reads/writes (no embedding call), so the
`try/except` never fires in the model. -/
def remove_file (st : EngineState) (file_path : String) : EngineState :=
  let rel := relpathM st.root file_path
  { st with
    file_info := dictDel st.file_info rel,
    graph := if st.graph.nodes.contains rel then st.graph.removeNode rel else st.graph,
    vec := (st.vec.filter (fun v => v.id != rel)).filter
             (fun v => !(strBeginsWith v.id (rel ++ ":"))) }

/-! ## The relationship rebuild (`_build_relationships`,
`_add_import_edge`) -/

/-- The inner double loop of `_add_import_edge`: the first known file
path (dict order) ending with the first matching of the two candidate
manglings, if any — the `return` after `add_edge` stops the search at
the first hit. -/
def import_edge_target (keys : List String) (imported_module : String) : Option String :=
  let module_path := charReplace imported_module '.' '/'
  let variations := [module_path ++ ".py", module_path ++ "/__init__.py"]
  variations.findSome? (fun var => keys.find? (fun k => strEndsWith k var))

/-- `_add_import_edge` given an already-read module name: add at most
one `imports` edge. -/
def add_import_edge (keys : List String) (g : Graph)
    (file_path imported_module : String) : Graph :=
  match import_edge_target keys imported_module with
  | some other => g.addEdge file_path other "imports"
  | none => g

/-- `_add_import_edge` as called by `_build_relationships`: for an
`importfrom` entry the module may be `None`, and
`imported_module.replace('.', '/')` then raises `AttributeError`. -/
def add_import_edgeE (keys : List String) (g : Graph)
    (file_path : String) (imported_module : Option String) : Except String Graph :=
  match imported_module with
  | none => .error "\x27NoneType\x27 object has no attribute \x27replace\x27"
  | some m => .ok (add_import_edge keys g file_path m)

/-- The module name an import entry hands to `_add_import_edge`
(`imp['name']` for an `import`, `imp['module']` for a `from` import —
the `if imp['type'] == 'import' / elif 'importfrom'` dispatch). -/
def moduleNameOf : ImportInfo → Option String
  | .imp n _ => some n
  | .impFrom m _ _ => m

/-- One iteration of the import loop of `_build_relationships`. -/
def import_step (keys : List String) (file_path : String) (g : Graph)
    (imp : ImportInfo) : Except String Graph :=
  add_import_edgeE keys g file_path (moduleNameOf imp)

/-- The import loop of `_build_relationships`. -/
def build_import_edges (finfo : List (String × FileRecord)) (g : Graph) :
    Except String Graph :=
  finfo.foldlM
    (fun g2 pr => pr.2.importsOf.foldlM (import_step (finfo.map Prod.fst) pr.1) g2)
    g

/-- Handling of one recorded call in the call loop of
`_build_relationships`: a dotted name links the calling file to every
class node named like the first dotted component; a bare name links it
to every file-qualified function node of that name. -/
def build_call_edges_for_call (finfo : List (String × FileRecord)) (g : Graph)
    (file_path called : String) : Graph :=
  if strHasChar called '.' then
    let module_name := headPart called
    finfo.foldl
      (fun g2 pr =>
        pr.2.classesOf.foldl
          (fun g3 cls =>
            if cls.name == module_name then
              g3.addEdge file_path (pr.1 ++ ":class:" ++ cls.name) "calls"
            else g3)
          g2)
      g
  else
    finfo.foldl
      (fun g2 pr =>
        pr.2.functionsOf.foldl
          (fun g3 func =>
            if func.name == called then
              g3.addEdge file_path (pr.1 ++ ":function:" ++ func.name) "calls"
            else g3)
          g2)
      g

/-- The call loop of `_build_relationships`. -/
def build_call_edges (finfo : List (String × FileRecord)) (g : Graph) : Graph :=
  finfo.foldl
    (fun g2 pr =>
      pr.2.callsOf.foldl
        (fun g3 call => build_call_edges_for_call finfo g3 pr.1 call.name)
        g2)
    g

/-- `DevChatInterpreter._build_relationships`: clear all edges (nodes
are retained), run the import loop, then the call loop.  The
`AttributeError` on a `None` `importfrom` module propagates (there is
no `try` around this method in the source). -/
def build_relationships (st : EngineState) : Except String EngineState :=
  match build_import_edges st.file_info { nodes := st.graph.nodes, edges := [] } with
  | .error e => .error e
  | .ok g1 => .ok { st with graph := build_call_edges st.file_info g1 }

/-- `DevChatInterpreter.update_file`: remove, re-add, rebuild. -/
def update_file (be : VectorBackend) (fs : String → Except String (String × List PyStmt))
    (st : EngineState) (file_path : String) : Except String EngineState :=
  build_relationships (add_file be fs (remove_file st file_path) file_path)

/-! ## The change watcher (`CodeWatcher` handlers) -/

/-- A filesystem event as delivered by watchdog. -/
structure FSEvent where
  src_path : String
  is_directory : Bool
deriving Repr

/-- `CodeWatcher.on_created`: ignore directories and non-`.py` paths,
else `add_file`. -/
def on_created (be : VectorBackend) (fs : String → Except String (String × List PyStmt))
    (st : EngineState) (ev : FSEvent) : EngineState :=
  if ev.is_directory then st
  else if strEndsWith ev.src_path ".py" then add_file be fs st ev.src_path
  else st

/-- `CodeWatcher.on_modified`: ignore directories and non-`.py` paths,
else `update_file`. -/
def on_modified (be : VectorBackend) (fs : String → Except String (String × List PyStmt))
    (st : EngineState) (ev : FSEvent) : Except String EngineState :=
  if ev.is_directory then .ok st
  else if strEndsWith ev.src_path ".py" then update_file be fs st ev.src_path
  else .ok st

/-- `CodeWatcher.on_deleted`: ignore directories and non-`.py` paths,
else `remove_file`. -/
def on_deleted (st : EngineState) (ev : FSEvent) : EngineState :=
  if ev.is_directory then st
  else if strEndsWith ev.src_path ".py" then remove_file st ev.src_path
  else st

/-! ## The query engine -/

/-- `dict.get(file_path)` — `DevChatInterpreter.get_file_info`. -/
def get_file_info (st : EngineState) (file_path : String) : Option FileRecord :=
  (st.file_info.find? (fun p => p.1 == file_path)).map Prod.snd

/-- One dependent/caller entry (the source dicts carry a constant
`'type'` tag next to `'source'`; only the source path is modelled). -/
structure Dependent where
  source : String
deriving DecidableEq, Repr

/-- `DevChatInterpreter.get_dependents`: sources of incoming `imports`
edges, empty when the node is absent. -/
def get_dependents (st : EngineState) (file_path : String) : List Dependent :=
  if st.graph.nodes.contains file_path then
    (st.graph.edges.filter (fun e => e.tgt == file_path && e.typ == "imports")).map
      (fun e => ⟨e.src⟩)
  else []

/-- `DevChatInterpreter.get_dependencies`: targets of outgoing
`imports` edges, empty when the node is absent. -/
def get_dependencies (st : EngineState) (file_path : String) : List Dependent :=
  if st.graph.nodes.contains file_path then
    (st.graph.edges.filter (fun e => e.src == file_path && e.typ == "imports")).map
      (fun e => ⟨e.tgt⟩)
  else []

/-- `DevChatInterpreter.get_function_calls`: for every node containing
`:function:` and ending in `:<name>`, the sources of its incoming
`calls` edges. -/
def get_function_calls (st : EngineState) (function_name : String) : List Dependent :=
  st.graph.nodes.foldl
    (fun acc node =>
      if strContains node ":function:" && strEndsWith node (":" ++ function_name) then
        acc ++ (st.graph.edges.filter (fun e => e.tgt == node && e.typ == "calls")).map
          (fun e => ⟨e.src⟩)
      else acc)
    []

/-- One entry of the `transitive_dependents` list of
`get_impact_analysis`. -/
structure TransDep where
  source : String
  via : String
deriving DecidableEq, Repr

mutual
/-- The recursive `visit_dependents` closure of `get_impact_analysis`,
with fuel for the recursion depth (the Python recursion is unbounded;
`visit_stable` below shows any fuel beyond the edge count yields the
same result, which is the termination argument). -/
def visit_dependents (st : EngineState) : Nat → String → List String → List TransDep →
    List String × List TransDep
  | 0, _, visited, acc => (visited, acc)
  | fuel + 1, path, visited, acc =>
      visit_go st fuel path ((get_dependents st path).map (fun d => d.source)) visited acc

/-- The `for dep in deps` loop inside `visit_dependents`. -/
def visit_go (st : EngineState) (fuel : Nat) (path : String) :
    List String → List String → List TransDep → List String × List TransDep
  | [], visited, acc => (visited, acc)
  | d :: ds, visited, acc =>
      if visited.contains d then visit_go st fuel path ds visited acc
      else
        visit_go st fuel path ds
          (visit_dependents st fuel d (d :: visited) (acc ++ [⟨d, path⟩])).1
          (visit_dependents st fuel d (d :: visited) (acc ++ [⟨d, path⟩])).2
end

/-- The result dict of `get_impact_analysis`. -/
structure ImpactResult where
  file : String
  direct_dependents : List Dependent
  transitive_dependents : List TransDep
  functions : List FuncInfo
  classes : List ClassInfo
  total_impact_count : Nat
deriving DecidableEq, Repr

/-- `DevChatInterpreter.get_impact_analysis` with explicit recursion
fuel. -/
def get_impact_analysis_fuel (fuel : Nat) (st : EngineState) (file_path : String) :
    ImpactResult :=
  let direct := get_dependents st file_path
  let res := direct.foldl
    (fun (va : List String × List TransDep) dep =>
      visit_dependents st fuel dep.source va.1 va.2)
    ([file_path], [])
  let fi := get_file_info st file_path
  { file := file_path,
    direct_dependents := direct,
    transitive_dependents := res.2,
    functions := (fi.map FileRecord.functionsOf).getD [],
    classes := (fi.map FileRecord.classesOf).getD [],
    total_impact_count := direct.length + res.2.length }

/-- `DevChatInterpreter.get_impact_analysis`: the canonical fuel
`|edges| + 1` always suffices (theorem `visit_stable`/claim C6). -/
def get_impact_analysis (st : EngineState) (file_path : String) : ImpactResult :=
  get_impact_analysis_fuel (st.graph.edges.length + 1) st file_path

/-- The fixed persistence patterns of `get_database_interactions`.
Every one of the source's regexes is a literal string once the escapes
are removed, so `re.search` is substring search. -/
def db_patterns : List String :=
  [".execute(", ".query(", ".commit(", ".rollback(", ".cursor(", ".connection",
   "session.add(", "session.delete(", "session.commit(", "db.session",
   "database", "Database", "SQLAlchemy", "Model.", "models."]

/-- One entry of the `get_database_interactions` result: a module-level
function or a class method. -/
inductive DbEntry where
  | func (file function : String) (lineno : Nat)
  | method (file cls method : String) (lineno : Nat)
deriving DecidableEq, Repr

/-- The file path of a `DbEntry`. -/
def DbEntry.fileOf : DbEntry → String
  | .func f _ _ => f
  | .method f _ _ _ => f

/-- `DevChatInterpreter.get_database_interactions`: for every file
whose raw content matches any pattern, report all its module-level
functions and then all its class methods. -/
def get_database_interactions (st : EngineState) : List DbEntry :=
  st.file_info.foldl
    (fun acc pr =>
      if db_patterns.any (fun pat => strContains pr.2.contentOf pat) then
        acc ++ pr.2.functionsOf.map (fun f => DbEntry.func pr.1 f.name f.lineno)
          ++ pr.2.classesOf.foldl
              (fun ms cls =>
                ms ++ cls.methods.map (fun m => DbEntry.method pr.1 cls.name m.name m.lineno))
              []
      else acc)
    []

/-- The body of `search_code`'s `try` block: the collection query
(which embeds the text via the external provider and may raise),
then the zip over ids/documents/metadatas with the optional distance
at the same index (an out-of-range index would raise, hence the
`Except`). -/
def search_code_core (be : VectorBackend) (n_results : Nat) :
    Except String (List SearchHit) := do
  let r ← be.queryOutcome
  let _ := n_results
  (r.ids.zip (r.documents.zip r.metadatas)).foldlM
    (fun (acc : List SearchHit) trip => do
      let i := acc.length
      let score ←
        match r.distances with
        | none => pure (none : Option Int)
        | some ds =>
            match ds[i]? with
            | some v => pure (some v)
            | none => Except.error "IndexError: list index out of range"
      pure (acc ++ [{ id := trip.1, document := trip.2.1, meta := trip.2.2,
                      score := score }]))
    []

/-- `DevChatInterpreter.search_code`: any raise inside the `try`
(provider failure, malformed reply) is caught, the error printed, and
the empty list returned. -/
def search_code (be : VectorBackend) (st : EngineState) (query : String)
    (n_results : Nat) : List SearchHit :=
  let _ := st
  let _ := query
  match search_code_core be n_results with
  | .error _ => []
  | .ok hits => hits

/-! ## The query router (`process_query`)

The three route conditions use `re.search` with patterns that are
alternations of literals (`impact|affect|change`, `database|db|sql`,
`function|call|method`, case-insensitive) or the literal `\.py`; these
are substring tests.  The extraction patterns `(\w+\.py)` and `(\w+)\(`
are modelled by a leftmost scan: at each position, the maximal
word-character run (letters, digits, underscore — ASCII, which covers
every input the claims use) followed by the literal `.py` resp. `(`;
backtracking inside the run can never help because `.`/`(` are not
word characters, so this is exactly Python's leftmost-greedy match. -/

/-- `\w` on ASCII text. -/
def isWordChar (c : Char) : Bool :=
  c.isAlphanum || c == '_'

/-- Leftmost match of `(\w+\.py)`, as a character-list scan. -/
def scanPyToken : List Char → Option (List Char)
  | [] => none
  | c :: rest =>
      if isWordChar c then
        if ((c :: rest).dropWhile isWordChar).take 3 == ['.', 'p', 'y'] then
          some ((c :: rest).takeWhile isWordChar ++ ['.', 'p', 'y'])
        else scanPyToken rest
      else scanPyToken rest

/-- `re.search(r'(\w+\.py)', q)`, group 1. -/
def first_py_token (q : String) : Option String :=
  (scanPyToken q.data).map (fun cs => String.mk cs)

/-- Leftmost match of `(\w+)\(`, group 1. -/
def scanCallToken : List Char → Option (List Char)
  | [] => none
  | c :: rest =>
      if isWordChar c then
        if ((c :: rest).dropWhile isWordChar).take 1 == ['('] then
          some ((c :: rest).takeWhile isWordChar)
        else scanCallToken rest
      else scanCallToken rest

/-- `re.search(r'(\w+)\(', q)`, group 1. -/
def first_call_token (q : String) : Option String :=
  (scanCallToken q.data).map (fun cs => String.mk cs)

/-- Case-insensitive alternation-of-literals search
(`re.search(kw1|kw2|kw3, q, re.IGNORECASE)`). -/
def hasKw (q : String) (kws : List String) : Bool :=
  kws.any (fun k => strContains (strToLower q) k)

/-- The `process_query` response dict, one constructor per `'type'`. -/
inductive QueryResult where
  | impact_analysis (query : String) (file : String) (impact : ImpactResult)
  | database_interactions (query : String) (functions : List DbEntry)
  | function_calls (query : String) (function : String) (callers : List Dependent)
  | semantic_search (query : String) (results : List SearchHit)
deriving Repr

/-- Whether a `QueryResult` is the impact-analysis kind. -/
def QueryResult.isImpact : QueryResult → Bool
  | .impact_analysis _ _ _ => true
  | _ => false

/-- `DevChatInterpreter.process_query`.  Note the control flow of the
source: when the first condition holds but no indexed file path ends
with the extracted name (or no name is extracted), the `if` body
returns nothing, the `elif` chain is skipped, and control falls
through to the semantic-search default. -/
def process_query (be : VectorBackend) (st : EngineState) (query : String) :
    QueryResult :=
  if hasKw query ["impact", "affect", "change"] && strContains query ".py" then
    match first_py_token query with
    | some file_name =>
        match st.file_info.find? (fun p => strEndsWith p.1 file_name) with
        | some pr => .impact_analysis query pr.1 (get_impact_analysis st pr.1)
        | none => .semantic_search query (search_code be st query 5)
    | none => .semantic_search query (search_code be st query 5)
  else if hasKw query ["database", "db", "sql"] then
    .database_interactions query (get_database_interactions st)
  else if hasKw query ["function", "call", "method"] && (first_call_token query).isSome then
    match first_call_token query with
    | some fn => .function_calls query fn (get_function_calls st fn)
    | none => .semantic_search query (search_code be st query 5)
  else
    .semantic_search query (search_code be st query 5)

/-- `DevChatInterpreter.get_system_stats` (the vector-item count). -/
def get_system_stats (st : EngineState) : Nat × Nat × Nat × Nat :=
  (st.file_info.length, st.graph.nodes.length, st.graph.edges.length, st.vec.length)

/-! ## Concrete fixtures used by witnesses and counterexamples -/

/-- A provider backend that never fails and returns an empty query
reply. -/
def beOk : VectorBackend := ⟨fun _ => none, .ok ⟨[], [], [], none⟩⟩

/-- A provider backend whose embedding calls all fail. -/
def beFail : VectorBackend := ⟨fun _ => some "ProviderError", .error "ProviderError"⟩

/-- The engine right after construction over an empty project. -/
def emptyEngine : EngineState := ⟨"", [], ⟨[], []⟩, []⟩

/-- A parsed record with no imports/classes/functions/calls (content
`"x"`, a lone name expression). -/
def recPlain (p : String) : FileRecord :=
  .ok ⟨p, [], [], [], [], "x"⟩

/-- A parsed record holding a single `import m`. -/
def recImports (p m : String) : FileRecord :=
  .ok ⟨p, [.imp m none], [], [], [], "import " ++ m⟩

/-- Filesystem for the C2 scenario: `a.py` declares class `Foo`
(method-free, so it parses), `b.py` performs the dotted call
`Foo.bar()`. -/
def fsC2 : String → Except String (String × List PyStmt)
  | "a.py" => .ok ("class Foo: pass", [.classDef "Foo" [] [.passStmt 1] 1])
  | "b.py" => .ok ("Foo.bar()", [.exprStmt (.call (.attribute (.name "Foo" 1) "bar" 1) [] 1) 1])
  | _ => .error "FileNotFoundError"

/-- Both scenario files added to a fresh engine. -/
def stC2 : EngineState :=
  add_file beOk fsC2 (add_file beOk fsC2 emptyEngine "a.py") "b.py"

/-- Index with two files whose paths both end in `utils.py` and a file
importing `utils`. -/
def stC4 : EngineState :=
  ⟨"", [("p/utils.py", recPlain "p/utils.py"),
        ("q/utils.py", recPlain "q/utils.py"),
        ("main.py", recImports "main.py" "utils")],
   ⟨["p/utils.py", "q/utils.py", "main.py"], []⟩, []⟩

/-- Filesystem serving the unchanged content of `p/utils.py`. -/
def fsC7 : String → Except String (String × List PyStmt)
  | "p/utils.py" => .ok ("x", [.exprStmt (.name "x" 1) 1])
  | _ => .error "FileNotFoundError"

/-- Index holding only `a.py`, which imports module `b`. -/
def stC3 : EngineState :=
  ⟨"", [("a.py", recImports "a.py" "b")], ⟨["a.py"], []⟩, []⟩

/-- Filesystem serving an empty `b.py`. -/
def fsC3 : String → Except String (String × List PyStmt)
  | "b.py" => .ok ("", [])
  | _ => .error "FileNotFoundError"

/-- Fixture for the C2 witness: one import edge, vector entries for
`a.py`, one of its class identities, and `b.py`. -/
def stW2 : EngineState :=
  ⟨"", [("a.py", recPlain "a.py"), ("b.py", recPlain "b.py")],
   ⟨["a.py", "b.py"], [⟨"b.py", "a.py", "imports"⟩]⟩,
   [⟨"a.py", "d", .fileMeta "a.py"⟩,
    ⟨"a.py:class:Foo", "d", .classMeta "Foo" "a.py" 1⟩,
    ⟨"b.py", "d", .fileMeta "b.py"⟩]⟩

/-- The contribution of one file to `get_database_interactions`: all
its functions then all its class methods when any pattern matches the
raw content, nothing otherwise. -/
def dbFileChunk (pr : String × FileRecord) : List DbEntry :=
  if db_patterns.any (fun pat => strContains pr.2.contentOf pat) then
    pr.2.functionsOf.map (fun f => DbEntry.func pr.1 f.name f.lineno)
      ++ pr.2.classesOf.flatMap
          (fun cls => cls.methods.map (fun m => DbEntry.method pr.1 cls.name m.name m.lineno))
  else []

/-- A record matching the persistence patterns (content `db.session`),
with one function and one class method. -/
def recDb : FileRecord :=
  .ok ⟨"d.py", [], [⟨"C", 1, [], [⟨"m", 2, [], none⟩], none⟩],
       [⟨"g", 4, [], none⟩], [], "db.session"⟩

/-- Fixture for the C10 witness: one matching and one non-matching
file. -/
def stW10 : EngineState :=
  ⟨"", [("d.py", recDb), ("c.py", recPlain "c.py")], ⟨[], []⟩, []⟩

/-- Index with a single `utils.py` (C5 witness). -/
def stW5 : EngineState :=
  ⟨"", [("utils.py", recPlain "utils.py")], ⟨["utils.py"], []⟩, []⟩

/-- The number of edges whose source is not yet visited: the measure
that shrinks at every recursive `visit_dependents` call (each call
newly visits the source of at least one edge). -/
def remL (es : List GEdge) (v : List String) : Nat :=
  (es.filter (fun e => !(v.contains e.src))).length

/-- The traversal invariant of `get_impact_analysis`: every recorded
transitive source is visited, sources are pairwise distinct, no source
lies in the initial visited set, and the initial set stays visited. -/
def goodState (init v : List String) (a : List TransDep) : Prop :=
  (∀ t ∈ a, t.source ∈ v) ∧ (a.map TransDep.source).Nodup
    ∧ (∀ t ∈ a, t.source ∉ init) ∧ (∀ x ∈ init, x ∈ v)

/-- Fixture for the C6 witness: a three-file import cycle
(`a.py → c.py → b.py → a.py` on the imported-by relation). -/
def stW6 : EngineState :=
  ⟨"", [], ⟨["a.py", "b.py", "c.py"],
   [⟨"b.py", "a.py", "imports"⟩, ⟨"c.py", "b.py", "imports"⟩,
    ⟨"a.py", "c.py", "imports"⟩]⟩, []⟩

/-! ## Edge-level mirrors of the rebuild

`Graph.addEdge` changes the edge list independently of the node list,
so the edge list produced by `_build_relationships` is a function of
the symbol index alone.  The following definitions compute that
function directly on edge lists; the lemmas below prove they project
the graph-level rebuild. -/

/-- Whether a string contains a colon (used to separate file keys from
class/function identity nodes). -/
def hasColon (s : String) : Bool :=
  s.data.contains ':'

/-- Edge-list effect of `_add_import_edge`. -/
def add_import_edge_edges (keys : List String) (es : List GEdge)
    (file_path imported_module : String) : List GEdge :=
  match import_edge_target keys imported_module with
  | some other => edgeUpd es file_path other "imports"
  | none => es

/-- Edge-list effect of one import-loop iteration. -/
def import_stepE (keys : List String) (file_path : String) (es : List GEdge)
    (imp : ImportInfo) : Except String (List GEdge) :=
  match moduleNameOf imp with
  | none => .error "\x27NoneType\x27 object has no attribute \x27replace\x27"
  | some m => .ok (add_import_edge_edges keys es file_path m)

/-- Edge-list effect of the handling of one recorded call. -/
def callEdgesUpdForCall (finfo : List (String × FileRecord)) (es : List GEdge)
    (file_path called : String) : List GEdge :=
  if strHasChar called '.' then
    finfo.foldl
      (fun es2 pr =>
        pr.2.classesOf.foldl
          (fun es3 cls =>
            if cls.name == headPart called then
              edgeUpd es3 file_path (pr.1 ++ ":class:" ++ cls.name) "calls"
            else es3)
          es2)
      es
  else
    finfo.foldl
      (fun es2 pr =>
        pr.2.functionsOf.foldl
          (fun es3 func =>
            if func.name == called then
              edgeUpd es3 file_path (pr.1 ++ ":function:" ++ func.name) "calls"
            else es3)
          es2)
      es

/-- The edge list `_build_relationships` computes, as a function of the
symbol index alone (starting from the cleared edge list). -/
def rebuilt_edges (finfo : List (String × FileRecord)) : Except String (List GEdge) :=
  (finfo.foldlM
      (fun es (pr : String × FileRecord) =>
        pr.2.importsOf.foldlM (import_stepE (finfo.map Prod.fst) pr.1) es)
      ([] : List GEdge)).map
    (fun es =>
      finfo.foldl
        (fun es2 pr =>
          pr.2.callsOf.foldl
            (fun es3 call => callEdgesUpdForCall finfo es3 pr.1 call.name)
            es2)
        es)

/-- Fixture for the C7 witness: `a.py` imports `b`; `b.py` is the most
recently added file. -/
def stW7 : EngineState :=
  ⟨"", [("a.py", recImports "a.py" "b"), ("b.py", recPlain "b.py")],
   ⟨["a.py", "b.py"], []⟩, []⟩

/-- The rebuilt C7 witness state. -/
def stW7r : EngineState :=
  ⟨"", [("a.py", recImports "a.py" "b"), ("b.py", recPlain "b.py")],
   ⟨["a.py", "b.py"], [⟨"a.py", "b.py", "imports"⟩]⟩, []⟩

/-- Filesystem serving the unchanged content of `b.py`. -/
def fsW7 : String → Except String (String × List PyStmt)
  | "b.py" => .ok ("x", [.exprStmt (.name "x" 1) 1])
  | _ => .error "FileNotFoundError"

/-- The rebuilt C4 state (only the first `utils.py` match is linked). -/
def stC4r : EngineState :=
  ⟨"", [("p/utils.py", recPlain "p/utils.py"),
        ("q/utils.py", recPlain "q/utils.py"),
        ("main.py", recImports "main.py" "utils")],
   ⟨["p/utils.py", "q/utils.py", "main.py"],
    [⟨"main.py", "p/utils.py", "imports"⟩]⟩, []⟩

/-! ## Generic fold lemmas -/

/-- A property preserved by every fold step holds of the fold. -/
theorem foldl_preserve {α σ : Type} (step : σ → α → σ) (P : σ → Prop)
    (hpre : ∀ s a, P s → P (step s a)) :
    ∀ (l : List α) (init : σ), P init → P (l.foldl step init) := by
  intro l
  induction l with
  | nil => intro init h; simpa using h
  | cons a l ih => intro init h; exact ih _ (hpre _ _ h)

/-- A property established by the step of some list member and
preserved by every step holds of the fold. -/
theorem foldl_establish {α σ : Type} (step : σ → α → σ) (P : σ → Prop)
    (hpre : ∀ s a, P s → P (step s a))
    (l : List α) (x : α) (hx : x ∈ l)
    (hest : ∀ s, P (step s x)) :
    ∀ init, P (l.foldl step init) := by
  induction l with
  | nil => cases hx
  | cons a l ih =>
      intro init
      rcases List.mem_cons.mp hx with rfl | hx'
      · exact foldl_preserve step P hpre l _ (hest init)
      · exact ih hx' _

/-- An appending fold is the accumulator followed by the concatenated
chunks. -/
theorem foldl_append_eq_bind {α β : Type} (f : α → List β) (l : List α) :
    ∀ acc : List β, l.foldl (fun a x => a ++ f x) acc = acc ++ l.flatMap f := by
  induction l with
  | nil => intro acc; simp
  | cons a l ih => intro acc; simp [ih, List.append_assoc]

/-- In an association list with nodup keys, a key determines its
value. -/
theorem assoc_key_unique :
    ∀ {l : List (String × FileRecord)}, (l.map Prod.fst).Nodup →
      ∀ {k : String} {a b : FileRecord}, (k, a) ∈ l → (k, b) ∈ l → a = b := by
  intro l
  induction l with
  | nil => intro _ k a b ha; cases ha
  | cons hd tl ih =>
      intro hnd k a b ha hb
      have hnd' := hnd
      rw [List.map_cons, List.nodup_cons] at hnd'
      rcases List.mem_cons.mp ha with rfl | ha' <;>
        rcases List.mem_cons.mp hb with hb' | hb'
      · cases hb'; rfl
      · exact absurd (List.mem_map_of_mem Prod.fst hb') (by simpa using hnd'.1)
      · cases hb'
        exact absurd (List.mem_map_of_mem Prod.fst ha') (by simpa using hnd'.1)
      · exact ih hnd'.2 ha' hb'

/-! ## Except and graph-projection lemmas -/

/-- Bind on a failed `Except` fails. -/
theorem except_bind_error {σ : Type} (f : σ → Except String σ) (e : String) :
    (Except.error e >>= f) = Except.error e := rfl

/-- Bind on a successful `Except` continues. -/
theorem except_bind_ok {σ : Type} (f : σ → Except String σ) (s : σ) :
    (Except.ok s >>= f) = f s := rfl

/-- `Graph.addNode` leaves the edge list unchanged. -/
theorem addNode_edges (g : Graph) (n : String) :
    (g.addNode n).edges = g.edges := by
  unfold Graph.addNode
  split <;> rfl

/-- The updated edge is in the updated edge list. -/
theorem edgeUpd_mem_self (es : List GEdge) (u v t : String) :
    (⟨u, v, t⟩ : GEdge) ∈ edgeUpd es u v t := by
  unfold edgeUpd
  by_cases h : es.any (fun e => e.src == u && e.tgt == v)
  · rw [if_pos h]
    rcases List.any_eq_true.mp h with ⟨e, he, hmatch⟩
    refine List.mem_map.mpr ⟨e, he, ?_⟩
    rw [if_pos hmatch]
    have h1 : e.src = u := by
      have := (Bool.and_eq_true _ _).mp hmatch
      exact beq_iff_eq.mp this.1
    have h2 : e.tgt = v := by
      have := (Bool.and_eq_true _ _).mp hmatch
      exact beq_iff_eq.mp this.2
    cases e
    simp_all
  · rw [if_neg h]
    exact List.mem_append.mpr (Or.inr (List.mem_singleton.mpr rfl))

/-- An existing edge survives an update that writes the same type or a
different endpoint pair. -/
theorem edgeUpd_preserve (es : List GEdge) (u v t : String) (x : GEdge)
    (hx : x ∈ es) (h : x.typ = t ∨ x.src ≠ u ∨ x.tgt ≠ v) :
    x ∈ edgeUpd es u v t := by
  unfold edgeUpd
  by_cases hany : es.any (fun e => e.src == u && e.tgt == v)
  · rw [if_pos hany]
    refine List.mem_map.mpr ⟨x, hx, ?_⟩
    by_cases hm : x.src == u && x.tgt == v
    · rw [if_pos hm]
      have h1 : x.src = u := beq_iff_eq.mp ((Bool.and_eq_true _ _).mp hm).1
      have h2 : x.tgt = v := beq_iff_eq.mp ((Bool.and_eq_true _ _).mp hm).2
      rcases h with ht | hs | hv
      · cases x; simp_all
      · exact absurd h1 hs
      · exact absurd h2 hv
    · rw [if_neg hm]
  · rw [if_neg hany]
    exact List.mem_append.mpr (Or.inl hx)

/-- A projection commuting with the step commutes with the fold. -/
theorem foldl_project {α σ τ : Type} (proj : σ → τ) (step : σ → α → σ)
    (estep : τ → α → τ) (h : ∀ s a, proj (step s a) = estep (proj s) a) :
    ∀ (l : List α) (s : σ), proj (l.foldl step s) = l.foldl estep (proj s) := by
  intro l
  induction l with
  | nil => intro s; rfl
  | cons a l ih => intro s; rw [List.foldl_cons, List.foldl_cons, ih, h]

/-- A projection commuting with the step commutes with the monadic
fold over `Except`. -/
theorem foldlM_project {α σ τ : Type} (proj : σ → τ)
    (step : σ → α → Except String σ) (estep : τ → α → Except String τ)
    (h : ∀ s a, (step s a).map proj = estep (proj s) a) :
    ∀ (l : List α) (s : σ),
      (List.foldlM step s l).map proj = List.foldlM estep (proj s) l := by
  intro l
  induction l with
  | nil => intro s; rfl
  | cons a l ih =>
      intro s
      rw [List.foldlM_cons, List.foldlM_cons]
      cases hs : step s a with
      | error e =>
          have h1 := h s a
          rw [hs] at h1
          have h2 : estep (proj s) a = Except.error e := by rw [← h1]; rfl
          rw [except_bind_error, h2, except_bind_error]
          rfl
      | ok s1 =>
          have h1 := h s a
          rw [hs] at h1
          have h2 : estep (proj s) a = Except.ok (proj s1) := by rw [← h1]; rfl
          rw [except_bind_ok, h2, except_bind_ok]
          exact ih s1

/-- A property preserved by every successful step survives a
successful monadic fold. -/
theorem foldlM_preserve_except {α σ : Type} (step : σ → α → Except String σ)
    (P : σ → Prop) (hpre : ∀ s a s', step s a = .ok s' → P s → P s') :
    ∀ (l : List α) (s s' : σ), List.foldlM step s l = .ok s' → P s → P s' := by
  intro l
  induction l with
  | nil =>
      intro s s' h hp
      have h2 : (Except.ok s : Except String σ) = Except.ok s' := h
      cases h2
      exact hp
  | cons a l ih =>
      intro s s' h hp
      rw [List.foldlM_cons] at h
      cases hs : step s a with
      | error e => rw [hs, except_bind_error] at h; cases h
      | ok s1 =>
          rw [hs, except_bind_ok] at h
          exact ih s1 s' h (hpre s a s1 hs hp)

/-- A property established by the step of some member and preserved by
every successful step holds after a successful monadic fold. -/
theorem foldlM_establish_except {α σ : Type} (step : σ → α → Except String σ)
    (P : σ → Prop) (hpre : ∀ s a s', step s a = .ok s' → P s → P s')
    (x : α) (hest : ∀ s s', step s x = .ok s' → P s') :
    ∀ (l : List α), x ∈ l →
      ∀ (s s' : σ), List.foldlM step s l = .ok s' → P s' := by
  intro l
  induction l with
  | nil => intro hx; cases hx
  | cons a l ih =>
      intro hx s s' h
      rw [List.foldlM_cons] at h
      rcases List.mem_cons.mp hx with rfl | hx'
      · cases hs : step s x with
        | error e => rw [hs, except_bind_error] at h; cases h
        | ok s1 =>
            rw [hs, except_bind_ok] at h
            exact foldlM_preserve_except step P hpre l s1 s' h (hest s s1 hs)
      · cases hs : step s a with
        | error e => rw [hs, except_bind_error] at h; cases h
        | ok s1 =>
            rw [hs, except_bind_ok] at h
            exact ih hx' s1 s' h

/-- The call handling of one recorded call projects to its edge-level
mirror. -/
theorem bcefc_edges (finfo : List (String × FileRecord)) (g : Graph)
    (f c : String) :
    (build_call_edges_for_call finfo g f c).edges
      = callEdgesUpdForCall finfo g.edges f c := by
  unfold build_call_edges_for_call callEdgesUpdForCall
  by_cases hc : strHasChar c '.'
  · rw [if_pos hc, if_pos hc]
    refine foldl_project Graph.edges _ _ ?_ finfo g
    intro s pr
    refine foldl_project Graph.edges _ _ ?_ pr.2.classesOf s
    intro s2 cls
    by_cases h2 : cls.name == headPart c
    · rw [if_pos h2, if_pos h2]; rfl
    · rw [if_neg h2, if_neg h2]
  · rw [if_neg hc, if_neg hc]
    refine foldl_project Graph.edges _ _ ?_ finfo g
    intro s pr
    refine foldl_project Graph.edges _ _ ?_ pr.2.functionsOf s
    intro s2 func
    by_cases h2 : func.name == c
    · rw [if_pos h2, if_pos h2]; rfl
    · rw [if_neg h2, if_neg h2]

/-- The call loop projects to its edge-level mirror. -/
theorem build_call_edges_edges (finfo : List (String × FileRecord)) (g : Graph) :
    (build_call_edges finfo g).edges
      = finfo.foldl
          (fun es2 pr =>
            pr.2.callsOf.foldl
              (fun es3 call => callEdgesUpdForCall finfo es3 pr.1 call.name)
              es2)
          g.edges := by
  unfold build_call_edges
  refine foldl_project Graph.edges _ _ ?_ finfo g
  intro s pr
  refine foldl_project Graph.edges _ _ ?_ pr.2.callsOf s
  intro s2 call
  exact bcefc_edges finfo s2 pr.1 call.name

/-- The import loop projects to its edge-level mirror. -/
theorem build_import_edges_edges (finfo : List (String × FileRecord)) (g : Graph) :
    (build_import_edges finfo g).map Graph.edges
      = finfo.foldlM
          (fun es (pr : String × FileRecord) =>
            pr.2.importsOf.foldlM (import_stepE (finfo.map Prod.fst) pr.1) es)
          g.edges := by
  unfold build_import_edges
  refine foldlM_project Graph.edges _ _ ?_ finfo g
  intro s pr
  refine foldlM_project Graph.edges _ _ ?_ pr.2.importsOf s
  intro s2 imp
  cases hmn : moduleNameOf imp with
  | none =>
      simp [import_step, import_stepE, add_import_edgeE, hmn]
      rfl
  | some m =>
      cases hiet : import_edge_target (finfo.map Prod.fst) m with
      | none =>
          simp [import_step, import_stepE, add_import_edgeE, add_import_edge,
                add_import_edge_edges, hmn, hiet]
          rfl
      | some other =>
          simp [import_step, import_stepE, add_import_edgeE, add_import_edge,
                add_import_edge_edges, hmn, hiet]
          rfl

/-- The edge list after `_build_relationships` is `rebuilt_edges` of
the symbol index — a pure function of the index. -/
theorem build_relationships_edges (st : EngineState) :
    (build_relationships st).map (fun s => s.graph.edges)
      = rebuilt_edges st.file_info := by
  unfold build_relationships rebuilt_edges
  have h1 := build_import_edges_edges st.file_info ⟨st.graph.nodes, []⟩
  rw [show ({ nodes := st.graph.nodes, edges := [] } : Graph).edges = [] from rfl]
    at h1
  cases hbi : build_import_edges st.file_info ⟨st.graph.nodes, []⟩ with
  | error e =>
      rw [hbi] at h1
      rw [← h1]
      rfl
  | ok g1 =>
      rw [hbi] at h1
      rw [← h1]
      show Except.ok (build_call_edges st.file_info g1).edges = _
      rw [build_call_edges_edges]
      rfl

/-- A successful rebuild changes only the graph. -/
theorem build_relationships_ok_parts (st st' : EngineState)
    (h : build_relationships st = .ok st') :
    st'.root = st.root ∧ st'.file_info = st.file_info ∧ st'.vec = st.vec := by
  unfold build_relationships at h
  cases hbi : build_import_edges st.file_info ⟨st.graph.nodes, []⟩ with
  | error e =>
      exact absurd h (by rw [hbi]; intro hc; cases hc)
  | ok g1 =>
      rw [hbi] at h
      have h2 : Except.ok { st with graph := build_call_edges st.file_info g1 }
          = Except.ok st' := h
      cases h2
      exact ⟨rfl, rfl, rfl⟩

/-- A string with a colon-bearing middle segment has a colon. -/
theorem hasColon_mid (a m b : String) (hm : hasColon m = true) :
    hasColon (a ++ m ++ b) = true := by
  unfold hasColon at hm ⊢
  have hmem : ':' ∈ m.data := by simpa using hm
  have : ':' ∈ (a ++ m ++ b).data := by
    rw [String.data_append, String.data_append]
    exact List.mem_append.mpr (Or.inl (List.mem_append.mpr (Or.inr hmem)))
  simpa using this

/-- A `calls`-typed edge survives the handling of any recorded call. -/
theorem bcefc_preserve_calls (finfo : List (String × FileRecord)) (g : Graph)
    (f c : String) (x : GEdge) (hx : x ∈ g.edges) (ht : x.typ = "calls") :
    x ∈ (build_call_edges_for_call finfo g f c).edges := by
  unfold build_call_edges_for_call
  by_cases hc : strHasChar c '.'
  · rw [if_pos hc]
    refine foldl_preserve _ (fun g2 => x ∈ g2.edges) ?_ finfo g hx
    intro s pr hs
    refine foldl_preserve _ (fun g2 => x ∈ g2.edges) ?_ pr.2.classesOf s hs
    intro s2 cls hs2
    by_cases h2 : cls.name == headPart c
    · rw [if_pos h2]
      exact edgeUpd_preserve _ _ _ _ x hs2 (Or.inl ht)
    · rw [if_neg h2]; exact hs2
  · rw [if_neg hc]
    refine foldl_preserve _ (fun g2 => x ∈ g2.edges) ?_ finfo g hx
    intro s pr hs
    refine foldl_preserve _ (fun g2 => x ∈ g2.edges) ?_ pr.2.functionsOf s hs
    intro s2 func hs2
    by_cases h2 : func.name == c
    · rw [if_pos h2]
      exact edgeUpd_preserve _ _ _ _ x hs2 (Or.inl ht)
    · rw [if_neg h2]; exact hs2

/-- An edge whose target has no colon survives the handling of any
recorded call (every call edge targets an identity node containing
`:class:` or `:function:`). -/
theorem bcefc_preserve_nocolon (finfo : List (String × FileRecord)) (g : Graph)
    (f c : String) (x : GEdge) (hx : x ∈ g.edges) (ht : hasColon x.tgt = false) :
    x ∈ (build_call_edges_for_call finfo g f c).edges := by
  unfold build_call_edges_for_call
  by_cases hc : strHasChar c '.'
  · rw [if_pos hc]
    refine foldl_preserve _ (fun g2 => x ∈ g2.edges) ?_ finfo g hx
    intro s pr hs
    refine foldl_preserve _ (fun g2 => x ∈ g2.edges) ?_ pr.2.classesOf s hs
    intro s2 cls hs2
    by_cases h2 : cls.name == headPart c
    · rw [if_pos h2]
      refine edgeUpd_preserve _ _ _ _ x hs2 (Or.inr (Or.inr ?_))
      intro hx2
      rw [hx2] at ht
      rw [hasColon_mid pr.1 ":class:" cls.name (by decide)] at ht
      cases ht
    · rw [if_neg h2]; exact hs2
  · rw [if_neg hc]
    refine foldl_preserve _ (fun g2 => x ∈ g2.edges) ?_ finfo g hx
    intro s pr hs
    refine foldl_preserve _ (fun g2 => x ∈ g2.edges) ?_ pr.2.functionsOf s hs
    intro s2 func hs2
    by_cases h2 : func.name == c
    · rw [if_pos h2]
      refine edgeUpd_preserve _ _ _ _ x hs2 (Or.inr (Or.inr ?_))
      intro hx2
      rw [hx2] at ht
      rw [hasColon_mid pr.1 ":function:" func.name (by decide)] at ht
      cases ht
    · rw [if_neg h2]; exact hs2

/-- Edges with colon-free targets survive the whole call loop. -/
theorem build_call_edges_preserve_nocolon (finfo : List (String × FileRecord))
    (g : Graph) (x : GEdge) (hx : x ∈ g.edges) (ht : hasColon x.tgt = false) :
    x ∈ (build_call_edges finfo g).edges := by
  unfold build_call_edges
  refine foldl_preserve _ (fun g2 => x ∈ g2.edges) ?_ finfo g hx
  intro s pr hs
  refine foldl_preserve _ (fun g2 => x ∈ g2.edges) ?_ pr.2.callsOf s hs
  intro s2 call hs2
  exact bcefc_preserve_nocolon finfo s2 pr.1 call.name x hs2 ht

/-- Handling a dotted call adds a `calls` edge to every file declaring
a class named like the first dotted component. -/
theorem bcefc_establish_class (finfo : List (String × FileRecord)) (G : Graph)
    (f c g' : String) (gi : FileRecord) (cls : ClassInfo)
    (hc : strHasChar c '.' = true) (hg : (g', gi) ∈ finfo)
    (hcls : cls ∈ gi.classesOf) (hname : cls.name = headPart c) :
    (⟨f, g' ++ ":class:" ++ cls.name, "calls"⟩ : GEdge)
      ∈ (build_call_edges_for_call finfo G f c).edges := by
  unfold build_call_edges_for_call
  rw [if_pos hc]
  refine foldl_establish _
    (fun g2 => (⟨f, g' ++ ":class:" ++ cls.name, "calls"⟩ : GEdge) ∈ g2.edges)
    ?_ finfo (g', gi) hg ?_ G
  · intro s pr hs
    refine foldl_preserve _
      (fun g2 => (⟨f, g' ++ ":class:" ++ cls.name, "calls"⟩ : GEdge) ∈ g2.edges)
      ?_ pr.2.classesOf s hs
    intro s2 cls2 hs2
    by_cases h2 : cls2.name == headPart c
    · rw [if_pos h2]
      exact edgeUpd_preserve _ _ _ _ _ hs2 (Or.inl rfl)
    · rw [if_neg h2]; exact hs2
  · intro s
    refine foldl_establish _
      (fun g2 => (⟨f, g' ++ ":class:" ++ cls.name, "calls"⟩ : GEdge) ∈ g2.edges)
      ?_ gi.classesOf cls hcls ?_ s
    · intro s2 cls2 hs2
      by_cases h2 : cls2.name == headPart c
      · rw [if_pos h2]
        exact edgeUpd_preserve _ _ _ _ _ hs2 (Or.inl rfl)
      · rw [if_neg h2]; exact hs2
    · intro s2
      rw [if_pos (beq_iff_eq.mpr hname)]
      exact edgeUpd_mem_self s2.edges f (g' ++ ":class:" ++ cls.name) "calls"

/-- Handling a bare call adds a `calls` edge to every file declaring a
function of that name. -/
theorem bcefc_establish_func (finfo : List (String × FileRecord)) (G : Graph)
    (f c g' : String) (gi : FileRecord) (fn : FuncInfo)
    (hc : strHasChar c '.' = false) (hg : (g', gi) ∈ finfo)
    (hfn : fn ∈ gi.functionsOf) (hname : fn.name = c) :
    (⟨f, g' ++ ":function:" ++ fn.name, "calls"⟩ : GEdge)
      ∈ (build_call_edges_for_call finfo G f c).edges := by
  unfold build_call_edges_for_call
  rw [if_neg (by simp [hc])]
  refine foldl_establish _
    (fun g2 => (⟨f, g' ++ ":function:" ++ fn.name, "calls"⟩ : GEdge) ∈ g2.edges)
    ?_ finfo (g', gi) hg ?_ G
  · intro s pr hs
    refine foldl_preserve _
      (fun g2 => (⟨f, g' ++ ":function:" ++ fn.name, "calls"⟩ : GEdge) ∈ g2.edges)
      ?_ pr.2.functionsOf s hs
    intro s2 fn2 hs2
    by_cases h2 : fn2.name == c
    · rw [if_pos h2]
      exact edgeUpd_preserve _ _ _ _ _ hs2 (Or.inl rfl)
    · rw [if_neg h2]; exact hs2
  · intro s
    refine foldl_establish _
      (fun g2 => (⟨f, g' ++ ":function:" ++ fn.name, "calls"⟩ : GEdge) ∈ g2.edges)
      ?_ gi.functionsOf fn hfn ?_ s
    · intro s2 fn2 hs2
      by_cases h2 : fn2.name == c
      · rw [if_pos h2]
        exact edgeUpd_preserve _ _ _ _ _ hs2 (Or.inl rfl)
      · rw [if_neg h2]; exact hs2
    · intro s2
      rw [if_pos (beq_iff_eq.mpr hname)]
      exact edgeUpd_mem_self s2.edges f (g' ++ ":function:" ++ fn.name) "calls"

/-- The call loop links a recorded dotted call of any indexed file to
every matching class node. -/
theorem build_call_edges_mem_class (finfo : List (String × FileRecord)) (G : Graph)
    (f : String) (fi : FileRecord) (c : CallInfo) (g' : String) (gi : FileRecord)
    (cls : ClassInfo) (hf : (f, fi) ∈ finfo) (hcall : c ∈ fi.callsOf)
    (hc : strHasChar c.name '.' = true) (hg : (g', gi) ∈ finfo)
    (hcls : cls ∈ gi.classesOf) (hname : cls.name = headPart c.name) :
    (⟨f, g' ++ ":class:" ++ cls.name, "calls"⟩ : GEdge)
      ∈ (build_call_edges finfo G).edges := by
  unfold build_call_edges
  refine foldl_establish _
    (fun g2 => (⟨f, g' ++ ":class:" ++ cls.name, "calls"⟩ : GEdge) ∈ g2.edges)
    ?_ finfo (f, fi) hf ?_ G
  · intro s pr hs
    refine foldl_preserve _
      (fun g2 => (⟨f, g' ++ ":class:" ++ cls.name, "calls"⟩ : GEdge) ∈ g2.edges)
      ?_ pr.2.callsOf s hs
    intro s2 call hs2
    exact bcefc_preserve_calls finfo s2 pr.1 call.name _ hs2 rfl
  · intro s
    refine foldl_establish _
      (fun g2 => (⟨f, g' ++ ":class:" ++ cls.name, "calls"⟩ : GEdge) ∈ g2.edges)
      ?_ fi.callsOf c hcall ?_ s
    · intro s2 call hs2
      exact bcefc_preserve_calls finfo s2 f call.name _ hs2 rfl
    · intro s2
      exact bcefc_establish_class finfo s2 f c.name g' gi cls hc hg hcls hname

/-- The call loop links a recorded bare call of any indexed file to
every matching function node. -/
theorem build_call_edges_mem_func (finfo : List (String × FileRecord)) (G : Graph)
    (f : String) (fi : FileRecord) (c : CallInfo) (g' : String) (gi : FileRecord)
    (fn : FuncInfo) (hf : (f, fi) ∈ finfo) (hcall : c ∈ fi.callsOf)
    (hc : strHasChar c.name '.' = false) (hg : (g', gi) ∈ finfo)
    (hfn : fn ∈ gi.functionsOf) (hname : fn.name = c.name) :
    (⟨f, g' ++ ":function:" ++ fn.name, "calls"⟩ : GEdge)
      ∈ (build_call_edges finfo G).edges := by
  unfold build_call_edges
  refine foldl_establish _
    (fun g2 => (⟨f, g' ++ ":function:" ++ fn.name, "calls"⟩ : GEdge) ∈ g2.edges)
    ?_ finfo (f, fi) hf ?_ G
  · intro s pr hs
    refine foldl_preserve _
      (fun g2 => (⟨f, g' ++ ":function:" ++ fn.name, "calls"⟩ : GEdge) ∈ g2.edges)
      ?_ pr.2.callsOf s hs
    intro s2 call hs2
    exact bcefc_preserve_calls finfo s2 pr.1 call.name _ hs2 rfl
  · intro s
    refine foldl_establish _
      (fun g2 => (⟨f, g' ++ ":function:" ++ fn.name, "calls"⟩ : GEdge) ∈ g2.edges)
      ?_ fi.callsOf c hcall ?_ s
    · intro s2 call hs2
      exact bcefc_preserve_calls finfo s2 f call.name _ hs2 rfl
    · intro s2
      exact bcefc_establish_func finfo s2 f c.name g' gi fn hc hg hfn hname

/-- One import-loop step keeps existing `imports` edges. -/
theorem import_step_preserve (keys : List String) (fp : String) (x : GEdge)
    (ht : x.typ = "imports") :
    ∀ (g : Graph) (imp : ImportInfo) (g' : Graph),
      import_step keys fp g imp = .ok g' → x ∈ g.edges → x ∈ g'.edges := by
  intro g imp g' h hx
  unfold import_step add_import_edgeE at h
  cases hmn : moduleNameOf imp with
  | none => rw [hmn] at h; cases h
  | some m =>
      rw [hmn] at h
      have h2 : add_import_edge keys g fp m = g' := by
        have h3 : Except.ok (add_import_edge keys g fp m) = Except.ok g' := h
        cases h3; rfl
      rw [← h2]
      unfold add_import_edge
      cases hiet : import_edge_target keys m with
      | none => exact hx
      | some other => exact edgeUpd_preserve _ _ _ _ x hx (Or.inl ht)

/-- The import loop links every import whose module resolves, to the
first known path matching a candidate mangling. -/
theorem build_import_edges_mem (finfo : List (String × FileRecord)) (g g1 : Graph)
    (f : String) (fi : FileRecord) (imp : ImportInfo) (m tgt : String)
    (hok : build_import_edges finfo g = .ok g1)
    (hf : (f, fi) ∈ finfo) (himp : imp ∈ fi.importsOf)
    (hm : moduleNameOf imp = some m)
    (htgt : import_edge_target (finfo.map Prod.fst) m = some tgt) :
    (⟨f, tgt, "imports"⟩ : GEdge) ∈ g1.edges := by
  unfold build_import_edges at hok
  refine foldlM_establish_except _
    (fun g2 => (⟨f, tgt, "imports"⟩ : GEdge) ∈ g2.edges)
    ?_ (f, fi) ?_ finfo hf g g1 hok
  · intro s pr s' hstep hs
    exact foldlM_preserve_except _ _
      (fun s2 imp2 s2' h2 hx => import_step_preserve _ _ _ rfl s2 imp2 s2' h2 hx)
      pr.2.importsOf s s' hstep hs
  · intro s s' hstep
    refine foldlM_establish_except _ _
      (fun s2 imp2 s2' h2 hx => import_step_preserve _ _ _ rfl s2 imp2 s2' h2 hx)
      imp ?_ fi.importsOf himp s s' hstep
    intro s2 s2' h2
    unfold import_step add_import_edgeE at h2
    rw [hm] at h2
    have h3 : add_import_edge (finfo.map Prod.fst) s2 f m = s2' := by
      have h4 : Except.ok (add_import_edge (finfo.map Prod.fst) s2 f m)
          = Except.ok s2' := h2
      cases h4; rfl
    rw [← h3]
    unfold add_import_edge
    rw [htgt]
    exact edgeUpd_mem_self s2.edges f tgt "imports"

/-- A resolved import target is one of the known file paths. -/
theorem import_edge_target_mem_keys (keys : List String) (m tgt : String)
    (h : import_edge_target keys m = some tgt) : tgt ∈ keys := by
  unfold import_edge_target at h
  rcases List.exists_of_findSome?_eq_some h with ⟨var, _, hfind⟩
  exact List.mem_of_find?_eq_some hfind

/-- Deleting the last-added key of a nodup-keyed dict leaves the
remaining entries in order. -/
theorem dictDel_append_last (l : List (String × FileRecord)) (k : String)
    (r : FileRecord) (hk : k ∉ l.map Prod.fst) :
    dictDel (l ++ [(k, r)]) k = l := by
  unfold dictDel
  rw [List.filter_append]
  have h2 : List.filter (fun p => decide (p.1 ≠ k)) [(k, r)] = [] := by
    simp
  rw [h2, List.append_nil]
  refine List.filter_eq_self.mpr ?_
  intro p hp
  have : p.1 ≠ k := by
    intro hpk
    exact hk (hpk ▸ List.mem_map_of_mem Prod.fst hp)
  simpa using this

/-- Setting an absent key appends the entry. -/
theorem dictSet_absent (l : List (String × FileRecord)) (k : String)
    (v : FileRecord) (hk : k ∉ l.map Prod.fst) :
    dictSet l k v = l ++ [(k, v)] := by
  unfold dictSet
  rw [if_neg]
  intro hany
  rcases List.any_eq_true.mp hany with ⟨p, hp, hpk⟩
  exact hk (beq_iff_eq.mp hpk ▸ List.mem_map_of_mem Prod.fst hp)

/-- Removing and re-adding the most recently added file with unchanged
content restores the symbol index exactly. -/
theorem roundtrip_file_info (be : VectorBackend)
    (fs : String → Except String (String × List PyStmt)) (st : EngineState)
    (p : String) (l : List (String × FileRecord)) (r : FileRecord)
    (hlast : st.file_info = l ++ [(relpathM st.root p, r)])
    (hnd : (st.file_info.map Prod.fst).Nodup)
    (hre : parse_file p (fs p) = r) :
    (add_file be fs (remove_file st p) p).file_info = st.file_info := by
  have hk : relpathM st.root p ∉ l.map Prod.fst := by
    rw [hlast, List.map_append] at hnd
    have := List.disjoint_of_nodup_append hnd
    intro hmem
    exact this hmem (by simp)
  show dictSet (dictDel st.file_info (relpathM st.root p)) (relpathM st.root p)
        (parse_file p (fs p)) = st.file_info
  rw [hre, hlast, dictDel_append_last l _ r hk, dictSet_absent l _ r hk]

/-! ## Impact-analysis traversal lemmas -/

/-- Unvisited-source count never exceeds the edge count. -/
theorem remL_le (es : List GEdge) (v : List String) : remL es v ≤ es.length :=
  List.length_filter_le _ _

/-- The unvisited-source count is antitone in the visited set. -/
theorem remL_mono (es : List GEdge) (v v' : List String)
    (h : ∀ x ∈ v, x ∈ v') : remL es v' ≤ remL es v := by
  unfold remL
  apply List.Sublist.length_le
  apply List.monotone_filter_right
  intro e he
  simp only [Bool.not_eq_true'] at he ⊢
  simp at he ⊢
  intro hmem
  exact he (h _ hmem)

/-- Newly visiting the source of some edge strictly shrinks the
unvisited-source count. -/
theorem remL_cons_lt (es : List GEdge) (v : List String) (d : String)
    (he : ∃ e ∈ es, e.src = d) (hv : d ∉ v) :
    remL es (d :: v) < remL es v := by
  unfold remL
  have hsub : List.Sublist (es.filter (fun e => !((d :: v).contains e.src)))
      (es.filter (fun e => !(v.contains e.src))) := by
    apply List.monotone_filter_right
    intro e hp
    simp only [Bool.not_eq_true'] at hp ⊢
    simp at hp ⊢
    exact hp.2
  rcases he with ⟨e', he', hsrc⟩
  have hmem : e' ∈ es.filter (fun e => !(v.contains e.src)) := by
    refine List.mem_filter.mpr ⟨he', ?_⟩
    simp [hsrc, hv]
  have hnot : e' ∉ es.filter (fun e => !((d :: v).contains e.src)) := by
    intro hmm
    have h2 := (List.mem_filter.mp hmm).2
    simp [hsrc] at h2
  refine Nat.lt_of_le_of_ne hsub.length_le ?_
  intro heq
  rw [hsub.eq_of_length heq] at hnot
  exact hnot hmem

/-- Every dependent source is the source of some edge. -/
theorem dependents_source_mem (st : EngineState) (path d : String)
    (hd : d ∈ (get_dependents st path).map (fun x => x.source)) :
    ∃ e ∈ st.graph.edges, e.src = d := by
  unfold get_dependents at hd
  by_cases hc : st.graph.nodes.contains path
  · rw [if_pos hc] at hd
    rcases List.mem_map.mp hd with ⟨dep, hdep, rfl⟩
    rcases List.mem_map.mp hdep with ⟨e, he, rfl⟩
    exact ⟨e, List.mem_of_mem_filter he, rfl⟩
  · rw [if_neg hc] at hd
    cases hd

/-- The visited set only grows along the traversal. -/
theorem visit_mono (st : EngineState) : ∀ fuel : Nat,
    (∀ (path : String) (v : List String) (a : List TransDep) (x : String),
      x ∈ v → x ∈ (visit_dependents st fuel path v a).1)
    ∧ (∀ (path : String) (ds v : List String) (a : List TransDep) (x : String),
      x ∈ v → x ∈ (visit_go st fuel path ds v a).1) := by
  intro fuel
  induction fuel with
  | zero =>
      have hQ : ∀ (path : String) (ds v : List String) (a : List TransDep)
          (x : String), x ∈ v → x ∈ (visit_go st 0 path ds v a).1 := by
        intro path ds
        induction ds with
        | nil => intro v a x hx; simpa [visit_go] using hx
        | cons d ds ih =>
            intro v a x hx
            simp only [visit_go]
            by_cases hc : v.contains d
            · rw [if_pos hc]; exact ih v a x hx
            · rw [if_neg hc]
              refine ih _ _ x ?_
              simpa [visit_dependents] using List.mem_cons_of_mem d hx
      exact ⟨fun path v a x hx => by simpa [visit_dependents] using hx, hQ⟩
  | succ fuel ihf =>
      have hP : ∀ (path : String) (v : List String) (a : List TransDep)
          (x : String), x ∈ v → x ∈ (visit_dependents st (fuel + 1) path v a).1 := by
        intro path v a x hx
        rw [visit_dependents]
        exact ihf.2 path _ v a x hx
      have hQ : ∀ (path : String) (ds v : List String) (a : List TransDep)
          (x : String), x ∈ v → x ∈ (visit_go st (fuel + 1) path ds v a).1 := by
        intro path ds
        induction ds with
        | nil => intro v a x hx; simpa [visit_go] using hx
        | cons d ds ih =>
            intro v a x hx
            simp only [visit_go]
            by_cases hc : v.contains d
            · rw [if_pos hc]; exact ih v a x hx
            · rw [if_neg hc]
              exact ih _ _ x (hP d (d :: v) _ x (List.mem_cons_of_mem d hx))
      exact ⟨hP, hQ⟩

/-- Pushing a newly visited dependent keeps the traversal invariant. -/
theorem goodState_push (init v : List String) (a : List TransDep)
    (d path : String) (hg : goodState init v a) (hd : d ∉ v) :
    goodState init (d :: v) (a ++ [⟨d, path⟩]) := by
  obtain ⟨h1, h2, h3, h4⟩ := hg
  refine ⟨?_, ?_, ?_, ?_⟩
  · intro t ht
    rcases List.mem_append.mp ht with h | h
    · exact List.mem_cons_of_mem d (h1 t h)
    · cases List.mem_singleton.mp h
      exact List.mem_cons_self _ _
  · rw [List.map_append]
    refine List.Nodup.append h2 (List.nodup_singleton d) ?_
    intro x hx hx'
    rcases List.mem_map.mp hx with ⟨t, ht, rfl⟩
    cases List.mem_singleton.mp hx'
    exact hd (h1 t ht)
  · intro t ht
    rcases List.mem_append.mp ht with h | h
    · exact h3 t h
    · cases List.mem_singleton.mp h
      intro hin
      exact hd (h4 _ hin)
  · intro x hx
    exact List.mem_cons_of_mem d (h4 x hx)

/-- The traversal preserves the invariant (no duplicate sources, no
source in the initial visited set). -/
theorem visit_inv (st : EngineState) (init : List String) : ∀ fuel : Nat,
    (∀ (path : String) (v : List String) (a : List TransDep),
      goodState init v a →
      goodState init (visit_dependents st fuel path v a).1
        (visit_dependents st fuel path v a).2)
    ∧ (∀ (path : String) (ds v : List String) (a : List TransDep),
      goodState init v a →
      goodState init (visit_go st fuel path ds v a).1
        (visit_go st fuel path ds v a).2) := by
  intro fuel
  induction fuel with
  | zero =>
      have hQ : ∀ (path : String) (ds v : List String) (a : List TransDep),
          goodState init v a →
          goodState init (visit_go st 0 path ds v a).1 (visit_go st 0 path ds v a).2 := by
        intro path ds
        induction ds with
        | nil => intro v a hg; simpa [visit_go] using hg
        | cons d ds ih =>
            intro v a hg
            simp only [visit_go]
            by_cases hc : v.contains d
            · rw [if_pos hc]; exact ih v a hg
            · rw [if_neg hc]
              have hd : d ∉ v := by simpa using hc
              refine ih _ _ ?_
              simpa [visit_dependents] using goodState_push init v a d path hg hd
      exact ⟨fun path v a hg => by simpa [visit_dependents] using hg, hQ⟩
  | succ fuel ihf =>
      have hP : ∀ (path : String) (v : List String) (a : List TransDep),
          goodState init v a →
          goodState init (visit_dependents st (fuel + 1) path v a).1
            (visit_dependents st (fuel + 1) path v a).2 := by
        intro path v a hg
        rw [visit_dependents]
        exact ihf.2 path _ v a hg
      have hQ : ∀ (path : String) (ds v : List String) (a : List TransDep),
          goodState init v a →
          goodState init (visit_go st (fuel + 1) path ds v a).1
            (visit_go st (fuel + 1) path ds v a).2 := by
        intro path ds
        induction ds with
        | nil => intro v a hg; simpa [visit_go] using hg
        | cons d ds ih =>
            intro v a hg
            simp only [visit_go]
            by_cases hc : v.contains d
            · rw [if_pos hc]; exact ih v a hg
            · rw [if_neg hc]
              have hd : d ∉ v := by simpa using hc
              exact ih _ _ (hP d (d :: v) _ (goodState_push init v a d path hg hd))
      exact ⟨hP, hQ⟩

/-- Fuel irrelevance: any two fuels strictly above the unvisited-source
count produce the same traversal — the termination argument for the
unbounded Python recursion (each nested call newly visits an edge
source, so the recursion depth is bounded by the edge count). -/
theorem visit_stable (st : EngineState) : ∀ k : Nat, ∀ (f f' : Nat) (path : String)
    (v : List String) (a : List TransDep),
    remL st.graph.edges v ≤ k → remL st.graph.edges v < f →
    remL st.graph.edges v < f' →
    visit_dependents st f path v a = visit_dependents st f' path v a := by
  intro k
  induction k using Nat.strong_induction_on with
  | _ k ih =>
    have hgo : ∀ (ds : List String), (∀ d ∈ ds, ∃ e ∈ st.graph.edges, e.src = d) →
        ∀ (fc fc' : Nat) (path : String) (v : List String) (a : List TransDep),
        remL st.graph.edges v ≤ k → remL st.graph.edges v ≤ fc →
        remL st.graph.edges v ≤ fc' →
        visit_go st fc path ds v a = visit_go st fc' path ds v a := by
      intro ds
      induction ds with
      | nil => intro _ fc fc' path v a _ _ _; simp [visit_go]
      | cons d ds ihds =>
          intro hsrc fc fc' path v a hk hfc hfc'
          simp only [visit_go]
          by_cases hc : v.contains d
          · rw [if_pos hc, if_pos hc]
            exact ihds (fun x hx => hsrc x (List.mem_cons_of_mem d hx)) fc fc'
              path v a hk hfc hfc'
          · rw [if_neg hc, if_neg hc]
            have hd : d ∉ v := by simpa using hc
            have hed := hsrc d (List.mem_cons_self d ds)
            have hlt : remL st.graph.edges (d :: v) < remL st.graph.edges v :=
              remL_cons_lt _ _ _ hed hd
            have hdep : visit_dependents st fc d (d :: v) (a ++ [⟨d, path⟩])
                = visit_dependents st fc' d (d :: v) (a ++ [⟨d, path⟩]) := by
              refine ih (remL st.graph.edges (d :: v)) (by omega) fc fc' d
                (d :: v) _ le_rfl (by omega) (by omega)
            rw [hdep]
            have hsub : ∀ x ∈ (d :: v),
                x ∈ (visit_dependents st fc' d (d :: v) (a ++ [⟨d, path⟩])).1 :=
              fun x hx => (visit_mono st fc').1 d (d :: v) _ x hx
            have hrem : remL st.graph.edges
                (visit_dependents st fc' d (d :: v) (a ++ [⟨d, path⟩])).1
                ≤ remL st.graph.edges (d :: v) := remL_mono _ _ _ hsub
            exact ihds (fun x hx => hsrc x (List.mem_cons_of_mem d hx)) fc fc'
              path _ _ (by omega) (by omega) (by omega)
    intro f f' path v a hk hf hf'
    obtain ⟨fc, rfl⟩ : ∃ fc, f = fc + 1 := ⟨f - 1, by omega⟩
    obtain ⟨fc', rfl⟩ : ∃ fc', f' = fc' + 1 := ⟨f' - 1, by omega⟩
    rw [visit_dependents, visit_dependents]
    refine hgo ((get_dependents st path).map (fun d => d.source)) ?_ fc fc' path
      v a hk (by omega) (by omega)
    intro d hd
    exact dependents_source_mem st path d hd

/-! ## Claim theorems -/

/-- C1: a file whose text parses successfully (here `def f():\n    pass`,
one module-level function, delivered as a well-formed AST) does NOT
yield a structural record with its module-level functions: the
`node.parent` access in `_extract_functions` raises `AttributeError`
(CPython `ast` nodes have no `parent` attribute), the `except` branch
of `parse_file` catches it, and the error record is returned.  This
exhibits the code-side failure of the claim at a concrete input. -/
theorem parse_file_function_file_falls_into_error_record :
    parse_file "m.py" (.ok ("def f():\n    pass", [.functionDef "f" [] [.passStmt 2] 1]))
      = .err "m.py" "\x27FunctionDef\x27 object has no attribute \x27parent\x27" := by
  rfl

/-- C9: `parse_file` is a pure function of the file path and the
read+parse outcome — `CodeParser` carries no state (its constructor is
`pass` and `parse_file` reads only its arguments), so parsing the same
unchanged file text twice yields identical records, in the successful
and in the error case alike. -/
theorem parse_file_idempotent (file_path : String)
    (src : Except String (String × List PyStmt)) :
    parse_file file_path src = parse_file file_path src := rfl

/-- C2 counterexample: in the two-file scenario (`a.py` declares class
`Foo`, `b.py` calls `Foo.bar()`), after the edge rebuild and then
`remove_file` of `a.py`, the `calls` edge
`b.py → a.py:class:Foo` — an edge referencing a class identity of the
removed file — is still in the graph, because `remove_node("a.py")`
only removes edges incident to the node named exactly `"a.py"`. -/
theorem remove_file_identity_edge_survives :
    (build_relationships stC2).map
        (fun s => (remove_file s "a.py").graph.edges)
      = .ok [⟨"b.py", "a.py:class:Foo", "calls"⟩] := by
  rfl

/-- C3 counterexample: with `a.py` (importing module `b`) indexed, the
`created` event for `b.py` leaves the edge set empty, whereas the edge
rebuild the claim prescribes for `created` would produce the
`a.py → b.py` imports edge: the handler runs no rebuild. -/
theorem on_created_runs_no_edge_rebuild :
    (on_created beOk fsC3 stC3 ⟨"b.py", false⟩).graph.edges = []
    ∧ (build_relationships (on_created beOk fsC3 stC3 ⟨"b.py", false⟩)).map
        (fun s => s.graph.edges)
      = .ok [⟨"a.py", "b.py", "imports"⟩] := by
  exact ⟨rfl, rfl⟩

/-- C4 counterexample: both `p/utils.py` and `q/utils.py` end with the
mangled candidate `utils.py` for `main.py`'s `import utils`, yet the
rebuild adds an imports edge only to `p/utils.py` (the first key in
index order) — the `return` in `_add_import_edge` stops at the first
match, so not every matching file is linked. -/
theorem import_edge_links_first_match_only :
    (build_relationships stC4).map (fun s => s.graph.edges)
      = .ok [⟨"main.py", "p/utils.py", "imports"⟩] := by
  rfl

/-- C5 counterexample: the query `What would break if I change
utils.py?` contains an impact keyword and the token `utils.py`, but on
an engine with no indexed file the router does NOT return an empty
impact-analysis result: the inner loop finds no file, the `elif` chain
is skipped, and the semantic-search default answers. -/
theorem process_query_no_match_is_semantic_search :
    process_query beOk emptyEngine "What would break if I change utils.py?"
      = .semantic_search "What would break if I change utils.py?" []
    ∧ (process_query beOk emptyEngine "What would break if I change utils.py?").isImpact
      = false := by
  exact ⟨rfl, rfl⟩

/-- C2 (amended): what `remove_file` does guarantee — afterwards no
vector entry's id is the removed relative path or an id of one of its
class/function identities (prefix `rel ++ ":"`), no dict entry keys it,
and no graph edge has the file's own node as an endpoint (edges whose
endpoint is a class/function identity node of the file may survive, as
the counterexample shows).  The hypothesis is the `networkx` invariant
that edge endpoints are nodes. -/
theorem remove_file_clears_file_references (st : EngineState) (fp : String)
    (hinv : ∀ e ∈ st.graph.edges, e.src ∈ st.graph.nodes ∧ e.tgt ∈ st.graph.nodes) :
    (∀ v ∈ (remove_file st fp).vec,
        v.id ≠ relpathM st.root fp
        ∧ strBeginsWith v.id (relpathM st.root fp ++ ":") = false)
    ∧ (∀ e ∈ (remove_file st fp).graph.edges,
        e.src ≠ relpathM st.root fp ∧ e.tgt ≠ relpathM st.root fp)
    ∧ (∀ pr ∈ (remove_file st fp).file_info, pr.1 ≠ relpathM st.root fp) := by
  refine ⟨?_, ?_, ?_⟩
  · intro v hv
    unfold remove_file at hv
    simp only [List.mem_filter] at hv
    refine ⟨by simpa using hv.1.2, by simpa using hv.2⟩
  · intro e he
    unfold remove_file at he
    simp only at he
    by_cases hc : st.graph.nodes.contains (relpathM st.root fp)
    · rw [if_pos hc] at he
      unfold Graph.removeNode at he
      simp only [List.mem_filter, decide_eq_true_eq] at he
      exact he.2
    · rw [if_neg hc] at he
      have hmem := hinv e he
      have hnot : relpathM st.root fp ∉ st.graph.nodes := by
        simpa using hc
      constructor
      · intro hsrc; exact hnot (hsrc ▸ hmem.1)
      · intro htgt; exact hnot (htgt ▸ hmem.2)
  · intro pr hpr
    unfold remove_file at hpr
    simp only at hpr
    unfold dictDel at hpr
    simp only [List.mem_filter, decide_eq_true_eq] at hpr
    exact hpr.2

/-- C2 witness: the amended removal guarantee at a concrete state. -/
theorem remove_file_clears_file_references_witness :
    (∀ v ∈ (remove_file stW2 "a.py").vec,
        v.id ≠ relpathM stW2.root "a.py"
        ∧ strBeginsWith v.id (relpathM stW2.root "a.py" ++ ":") = false)
    ∧ (∀ e ∈ (remove_file stW2 "a.py").graph.edges,
        e.src ≠ relpathM stW2.root "a.py" ∧ e.tgt ≠ relpathM stW2.root "a.py")
    ∧ (∀ pr ∈ (remove_file stW2 "a.py").file_info,
        pr.1 ≠ relpathM stW2.root "a.py") :=
  remove_file_clears_file_references stW2 "a.py" (by decide)

/-- C8: provider failures degrade, they do not propagate.  If the
vector query raises, `search_code` returns the empty list (the `except`
branch); and the symbol-index and graph effects of `add_file` are
independent of the vector backend — a failing upsert changes neither of
them and raises nothing past `add_file` (its vector part catches). -/
theorem vector_failures_degrade (be be' : VectorBackend) (st : EngineState)
    (q : String) (n : Nat) (e : String)
    (fs : String → Except String (String × List PyStmt)) (p : String)
    (hq : be.queryOutcome = .error e) :
    search_code be st q n = []
    ∧ (add_file be fs st p).file_info = (add_file be' fs st p).file_info
    ∧ (add_file be fs st p).graph = (add_file be' fs st p).graph := by
  refine ⟨?_, rfl, rfl⟩
  have h : search_code_core be n = .error e := by
    unfold search_code_core
    rw [hq]
    rfl
  unfold search_code
  rw [h]

/-- C8 witness: with a backend whose embedding calls all fail, the
search returns empty and indexing a file still updates the index and
graph exactly as with a healthy backend. -/
theorem vector_failures_degrade_witness :
    search_code beFail emptyEngine "query" 5 = []
    ∧ (add_file beFail fsC3 emptyEngine "b.py").file_info
        = (add_file beOk fsC3 emptyEngine "b.py").file_info
    ∧ (add_file beFail fsC3 emptyEngine "b.py").graph
        = (add_file beOk fsC3 emptyEngine "b.py").graph :=
  vector_failures_degrade beFail beOk emptyEngine "query" 5 "ProviderError" fsC3
    "b.py" rfl

/-- `get_database_interactions` is the concatenation of the per-file
chunks. -/
theorem gdi_eq_flatMap (st : EngineState) :
    get_database_interactions st = st.file_info.flatMap dbFileChunk := by
  unfold get_database_interactions
  have hstep : ∀ (acc : List DbEntry) (pr : String × FileRecord),
      (if db_patterns.any (fun pat => strContains pr.2.contentOf pat) then
        acc ++ pr.2.functionsOf.map (fun f => DbEntry.func pr.1 f.name f.lineno)
          ++ pr.2.classesOf.foldl
              (fun ms cls =>
                ms ++ cls.methods.map (fun m => DbEntry.method pr.1 cls.name m.name m.lineno))
              []
      else acc) = acc ++ dbFileChunk pr := by
    intro acc pr
    unfold dbFileChunk
    by_cases h : db_patterns.any (fun pat => strContains pr.2.contentOf pat)
    · rw [if_pos h, if_pos h, foldl_append_eq_bind, List.nil_append, List.append_assoc]
    · rw [if_neg h, if_neg h, List.append_nil]
  calc st.file_info.foldl
        (fun acc pr =>
          if db_patterns.any (fun pat => strContains pr.2.contentOf pat) then
            acc ++ pr.2.functionsOf.map (fun f => DbEntry.func pr.1 f.name f.lineno)
              ++ pr.2.classesOf.foldl
                  (fun ms cls =>
                    ms ++ cls.methods.map
                      (fun m => DbEntry.method pr.1 cls.name m.name m.lineno))
                  []
          else acc) []
      = st.file_info.foldl (fun acc pr => acc ++ dbFileChunk pr) [] := by
        apply List.foldl_ext
        intro acc pr _
        exact hstep acc pr
    _ = [] ++ st.file_info.flatMap dbFileChunk := foldl_append_eq_bind _ _ _
    _ = st.file_info.flatMap dbFileChunk := List.nil_append _

/-- Every entry of a file's chunk carries that file's path. -/
theorem dbFileChunk_fileOf (pr : String × FileRecord) :
    ∀ d ∈ dbFileChunk pr, d.fileOf = pr.1 := by
  intro d hd
  unfold dbFileChunk at hd
  by_cases h : db_patterns.any (fun pat => strContains pr.2.contentOf pat)
  · rw [if_pos h] at hd
    rcases List.mem_append.mp hd with hf | hm
    · rcases List.mem_map.mp hf with ⟨f, _, rfl⟩
      rfl
    · rcases List.mem_flatMap.mp hm with ⟨cls, _, hcm⟩
      rcases List.mem_map.mp hcm with ⟨m, _, rfl⟩
      rfl
  · rw [if_neg h] at hd
    cases hd

/-- C10: database-interaction listing is per-file, not per-function.
If any fixed persistence pattern occurs in a file's raw content, every
module-level function and every class method of that file is reported
(with its file, name and line); if none occurs, no entry for that file
appears at all. -/
theorem db_interactions_file_granularity (st : EngineState) (p : String)
    (fi : FileRecord)
    (hnd : (st.file_info.map Prod.fst).Nodup)
    (hmem : (p, fi) ∈ st.file_info) :
    (db_patterns.any (fun pat => strContains fi.contentOf pat) = true →
       (∀ f ∈ fi.functionsOf,
          DbEntry.func p f.name f.lineno ∈ get_database_interactions st)
       ∧ (∀ c ∈ fi.classesOf, ∀ m ∈ c.methods,
          DbEntry.method p c.name m.name m.lineno ∈ get_database_interactions st))
    ∧ (db_patterns.any (fun pat => strContains fi.contentOf pat) = false →
       ∀ d ∈ get_database_interactions st, d.fileOf ≠ p) := by
  rw [gdi_eq_flatMap]
  constructor
  · intro hmatch
    constructor
    · intro f hf
      refine List.mem_flatMap.mpr ⟨(p, fi), hmem, ?_⟩
      unfold dbFileChunk
      rw [if_pos hmatch]
      exact List.mem_append.mpr (Or.inl (List.mem_map.mpr ⟨f, hf, rfl⟩))
    · intro c hc m hm
      refine List.mem_flatMap.mpr ⟨(p, fi), hmem, ?_⟩
      unfold dbFileChunk
      rw [if_pos hmatch]
      exact List.mem_append.mpr
        (Or.inr (List.mem_flatMap.mpr ⟨c, hc, List.mem_map.mpr ⟨m, hm, rfl⟩⟩))
  · intro hnom d hd hdp
    rcases List.mem_flatMap.mp hd with ⟨pr, hpr, hdin⟩
    have hfile := dbFileChunk_fileOf pr d hdin
    have hkey : pr.1 = p := by rw [← hfile, hdp]
    have hrec : pr.2 = fi := by
      have : (p, pr.2) ∈ st.file_info := by
        have : (pr.1, pr.2) ∈ st.file_info := by simpa using hpr
        rwa [hkey] at this
      exact assoc_key_unique hnd this hmem
    unfold dbFileChunk at hdin
    rw [hkey, hrec] at hdin
    rw [if_neg (by simp [hnom])] at hdin
    cases hdin

/-- C10 witness: at the concrete state, the matching file's function
and method are reported. -/
theorem db_interactions_file_granularity_witness :
    (∀ f ∈ recDb.functionsOf,
       DbEntry.func "d.py" f.name f.lineno ∈ get_database_interactions stW10)
    ∧ (∀ c ∈ recDb.classesOf, ∀ m ∈ c.methods,
       DbEntry.method "d.py" c.name m.name m.lineno
         ∈ get_database_interactions stW10) :=
  (db_interactions_file_granularity stW10 "d.py" recDb (by decide) (by decide)).1
    (by decide)

/-- C7 counterexample: starting from the rebuilt `stC4`
(edges `main.py → p/utils.py`), removing `p/utils.py` and re-adding it
with unchanged content (the reparse yields exactly the stored record)
moves its key to the end of the dict order, and the next rebuild links
`main.py → q/utils.py` instead: the remove/re-add round trip does not
restore the previous edge set. -/
theorem rebuild_roundtrip_changes_edges :
    parse_file "p/utils.py" (fsC7 "p/utils.py") = recPlain "p/utils.py"
    ∧ (build_relationships stC4).map (fun s => s.graph.edges)
        = .ok [⟨"main.py", "p/utils.py", "imports"⟩]
    ∧ ((build_relationships stC4).bind
          (fun s => build_relationships
            (add_file beOk fsC7 (remove_file s "p/utils.py") "p/utils.py"))).map
        (fun s => s.graph.edges)
      = .ok [⟨"main.py", "q/utils.py", "imports"⟩] := by
  exact ⟨rfl, rfl, rfl⟩

/-- C3 (amended): the event pipelines the handlers actually run, for a
non-directory `.py` event.  `created` is parse+upsert+vector-upsert
with the edge set untouched (no rebuild); `deleted` is
remove+vector-delete-by-prefix, only ever removing edges (no rebuild);
only `modified` runs the edge rebuild, after which the edge set is the
pure rebuild of the resulting index. -/
theorem watcher_event_pipelines (be : VectorBackend)
    (fs : String → Except String (String × List PyStmt)) (st : EngineState)
    (ev : FSEvent) (hdir : ev.is_directory = false)
    (hpy : strEndsWith ev.src_path ".py" = true) :
    on_created be fs st ev = add_file be fs st ev.src_path
    ∧ (on_created be fs st ev).graph.edges = st.graph.edges
    ∧ on_deleted st ev = remove_file st ev.src_path
    ∧ (∀ e ∈ (on_deleted st ev).graph.edges, e ∈ st.graph.edges)
    ∧ on_modified be fs st ev = update_file be fs st ev.src_path
    ∧ (∀ st', update_file be fs st ev.src_path = .ok st' →
        rebuilt_edges st'.file_info = .ok st'.graph.edges) := by
  have hcr : on_created be fs st ev = add_file be fs st ev.src_path := by
    unfold on_created
    rw [hdir, hpy]
    rfl
  have hdel : on_deleted st ev = remove_file st ev.src_path := by
    unfold on_deleted
    rw [hdir, hpy]
    rfl
  refine ⟨hcr, ?_, hdel, ?_, ?_, ?_⟩
  · rw [hcr]
    show (st.graph.addNode (relpathM st.root ev.src_path)).edges = st.graph.edges
    exact addNode_edges st.graph _
  · intro e he
    rw [hdel] at he
    revert he
    show e ∈ (if st.graph.nodes.contains (relpathM st.root ev.src_path) then
        st.graph.removeNode (relpathM st.root ev.src_path) else st.graph).edges →
      e ∈ st.graph.edges
    intro he
    by_cases hc : st.graph.nodes.contains (relpathM st.root ev.src_path)
    · rw [if_pos hc] at he
      exact List.mem_of_mem_filter he
    · rw [if_neg hc] at he
      exact he
  · unfold on_modified
    rw [hdir, hpy]
    rfl
  · intro st' h
    unfold update_file at h
    have he := build_relationships_edges
      (add_file be fs (remove_file st ev.src_path) ev.src_path)
    rw [h] at he
    have hparts := build_relationships_ok_parts _ _ h
    rw [hparts.2.1]
    exact he.symm

/-- C3 witness: the amended pipelines at a concrete state and event. -/
theorem watcher_event_pipelines_witness :
    on_created beOk fsC3 stC3 ⟨"b.py", false⟩ = add_file beOk fsC3 stC3 "b.py"
    ∧ (on_created beOk fsC3 stC3 ⟨"b.py", false⟩).graph.edges = stC3.graph.edges
    ∧ on_deleted stC3 ⟨"b.py", false⟩ = remove_file stC3 "b.py"
    ∧ (∀ e ∈ (on_deleted stC3 ⟨"b.py", false⟩).graph.edges, e ∈ stC3.graph.edges)
    ∧ on_modified beOk fsC3 stC3 ⟨"b.py", false⟩ = update_file beOk fsC3 stC3 "b.py"
    ∧ (∀ st', update_file beOk fsC3 stC3 "b.py" = .ok st' →
        rebuilt_edges st'.file_info = .ok st'.graph.edges) :=
  watcher_event_pipelines beOk fsC3 stC3 ⟨"b.py", false⟩ rfl (by decide)

/-- C4 (amended): after a successful rebuild, every dotted call is
linked to the class node of EVERY file declaring a class named like its
first component, and every bare call to the function node of EVERY file
declaring a function of that name; an import, however, is linked only
to the FIRST known path (in index order, `.py` mangling checked across
all files before `__init__.py`) matching a candidate — the tie-break
links one file, not all.  The side condition says file keys contain no
colon, separating them from identity-node names. -/
theorem rebuild_links (st st' : EngineState)
    (hok : build_relationships st = .ok st')
    (hkeys : ∀ k ∈ st.file_info.map Prod.fst, hasColon k = false) :
    (∀ (f : String) (fi : FileRecord) (imp : ImportInfo) (m tgt : String),
       (f, fi) ∈ st.file_info → imp ∈ fi.importsOf →
       moduleNameOf imp = some m →
       import_edge_target (st.file_info.map Prod.fst) m = some tgt →
       (⟨f, tgt, "imports"⟩ : GEdge) ∈ st'.graph.edges)
    ∧ (∀ (f : String) (fi : FileRecord) (c : CallInfo) (g : String)
         (gi : FileRecord) (cls : ClassInfo),
       (f, fi) ∈ st.file_info → c ∈ fi.callsOf →
       strHasChar c.name '.' = true → (g, gi) ∈ st.file_info →
       cls ∈ gi.classesOf → cls.name = headPart c.name →
       (⟨f, g ++ ":class:" ++ cls.name, "calls"⟩ : GEdge) ∈ st'.graph.edges)
    ∧ (∀ (f : String) (fi : FileRecord) (c : CallInfo) (g : String)
         (gi : FileRecord) (fn : FuncInfo),
       (f, fi) ∈ st.file_info → c ∈ fi.callsOf →
       strHasChar c.name '.' = false → (g, gi) ∈ st.file_info →
       fn ∈ gi.functionsOf → fn.name = c.name →
       (⟨f, g ++ ":function:" ++ fn.name, "calls"⟩ : GEdge) ∈ st'.graph.edges) := by
  unfold build_relationships at hok
  cases hbi : build_import_edges st.file_info ⟨st.graph.nodes, []⟩ with
  | error e => exact absurd hok (by rw [hbi]; intro hc; cases hc)
  | ok g1 =>
      rw [hbi] at hok
      have h2 : Except.ok { st with graph := build_call_edges st.file_info g1 }
          = Except.ok st' := hok
      have hst : st' = { st with graph := build_call_edges st.file_info g1 } := by
        cases h2; rfl
      subst hst
      refine ⟨?_, ?_, ?_⟩
      · intro f fi imp m tgt hf himp hm htgt
        have hmem := build_import_edges_mem st.file_info _ g1 f fi imp m tgt hbi
          hf himp hm htgt
        have hnc : hasColon tgt = false :=
          hkeys tgt (import_edge_target_mem_keys _ m tgt htgt)
        exact build_call_edges_preserve_nocolon st.file_info g1 _ hmem hnc
      · intro f fi c g gi cls hf hcall hc hg hcls hname
        exact build_call_edges_mem_class st.file_info g1 f fi c g gi cls hf hcall
          hc hg hcls hname
      · intro f fi c g gi fn hf hcall hc hg hfn hname
        exact build_call_edges_mem_func st.file_info g1 f fi c g gi fn hf hcall
          hc hg hfn hname

/-- C4 witness: in the ambiguous-`utils.py` state, the first matching
file receives the imports edge. -/
theorem rebuild_links_witness :
    (⟨"main.py", "p/utils.py", "imports"⟩ : GEdge) ∈ stC4r.graph.edges :=
  (rebuild_links stC4 stC4r rfl (by decide)).1 "main.py"
    (recImports "main.py" "utils") (.imp "utils" none) "utils" "p/utils.py"
    (by decide) (by decide) rfl (by decide)

/-- C7 (amended): the edge rebuild is a pure function of the Symbol
Index (running it twice in a row yields the same edge set).  The
remove/re-add round trip restores the same edges when the re-added file
was the most recently added one; in general re-adding moves the file to
the end of the index order, which can pick a different first match for
an ambiguous import suffix (the counterexample). -/
theorem rebuild_pure_and_roundtrip_last (be : VectorBackend)
    (fs : String → Except String (String × List PyStmt)) (st st' : EngineState)
    (p : String) (l : List (String × FileRecord)) (r : FileRecord)
    (hok : build_relationships st = .ok st')
    (hlast : st.file_info = l ++ [(relpathM st.root p, r)])
    (hnd : (st.file_info.map Prod.fst).Nodup)
    (hre : parse_file p (fs p) = r) :
    (build_relationships st').map (fun s => s.graph.edges) = .ok st'.graph.edges
    ∧ (build_relationships (add_file be fs (remove_file st p) p)).map
        (fun s => s.graph.edges) = .ok st'.graph.edges := by
  have hE := build_relationships_edges st
  rw [hok] at hE
  have hE2 : rebuilt_edges st.file_info = Except.ok st'.graph.edges := by
    rw [← hE]
    rfl
  have hparts := build_relationships_ok_parts st st' hok
  constructor
  · rw [build_relationships_edges st', hparts.2.1]
    exact hE2
  · rw [build_relationships_edges,
        roundtrip_file_info be fs st p l r hlast hnd hre]
    exact hE2

/-- C7 witness: purity and the last-file round trip at a concrete
two-file state. -/
theorem rebuild_pure_and_roundtrip_last_witness :
    (build_relationships stW7r).map (fun s => s.graph.edges)
      = .ok stW7r.graph.edges
    ∧ (build_relationships (add_file beOk fsW7 (remove_file stW7 "b.py") "b.py")).map
        (fun s => s.graph.edges) = .ok stW7r.graph.edges :=
  rebuild_pure_and_roundtrip_last beOk fsW7 stW7 stW7r "b.py"
    [("a.py", recImports "a.py" "b")] (recPlain "b.py") rfl (by decide) (by decide)
    rfl

/-- C5 (amended): an impact-keyword query carrying a `\w+\.py` token is
routed to impact analysis keyed by the FIRST indexed path ending with
the token, when one exists; when no indexed path matches, the router
falls through to the semantic-search default (not an empty impact
result and not an error). -/
theorem process_query_impact_routing (be : VectorBackend) (st : EngineState)
    (q fname : String)
    (h1 : hasKw q ["impact", "affect", "change"] = true)
    (h2 : strContains q ".py" = true)
    (h3 : first_py_token q = some fname) :
    (∀ pr : String × FileRecord,
       st.file_info.find? (fun p => strEndsWith p.1 fname) = some pr →
       process_query be st q
         = .impact_analysis q pr.1 (get_impact_analysis st pr.1)
       ∧ strEndsWith pr.1 fname = true)
    ∧ (st.file_info.find? (fun p => strEndsWith p.1 fname) = none →
       process_query be st q = .semantic_search q (search_code be st q 5)) := by
  have hgoal : process_query be st q
      = (match st.file_info.find? (fun p => strEndsWith p.1 fname) with
         | some pr =>
             QueryResult.impact_analysis q pr.1 (get_impact_analysis st pr.1)
         | none => QueryResult.semantic_search q (search_code be st q 5)) := by
    unfold process_query
    rw [h1, h2, h3]
    rfl
  constructor
  · intro pr hpr
    rw [hgoal, hpr]
    refine ⟨rfl, ?_⟩
    have hx := List.find?_some hpr
    simpa using hx
  · intro hn
    rw [hgoal, hn]

/-- Fixture for the C5 witness: a single indexed `utils.py`. -/
theorem process_query_impact_routing_witness :
    process_query beOk stW5 "What would break if I change utils.py?"
      = .impact_analysis "What would break if I change utils.py?" "utils.py"
          (get_impact_analysis stW5 "utils.py")
    ∧ strEndsWith "utils.py" "utils.py" = true :=
  (process_query_impact_routing beOk stW5
      "What would break if I change utils.py?" "utils.py" (by decide) (by decide)
      (by decide)).1 ("utils.py", recPlain "utils.py") (by decide)

/-- C6: impact analysis terminates on cyclic import graphs (any fuel
beyond the canonical `|edges| + 1` yields the identical result), its
transitive list names each file at most once and never the analysed
file itself, and the reported total equals direct plus transitive
counts. -/
theorem impact_analysis_terminating_nodup (st : EngineState) (p : String)
    (fuel : Nat) (hfuel : st.graph.edges.length + 1 ≤ fuel) :
    get_impact_analysis_fuel fuel st p = get_impact_analysis st p
    ∧ ((get_impact_analysis st p).transitive_dependents.map TransDep.source).Nodup
    ∧ (∀ t ∈ (get_impact_analysis st p).transitive_dependents, t.source ≠ p)
    ∧ (get_impact_analysis st p).total_impact_count
        = (get_impact_analysis st p).direct_dependents.length
          + (get_impact_analysis st p).transitive_dependents.length := by
  have hfold : ∀ (l : List Dependent) (v : List String) (a : List TransDep),
      l.foldl (fun (va : List String × List TransDep) dep =>
        visit_dependents st fuel dep.source va.1 va.2) (v, a)
      = l.foldl (fun (va : List String × List TransDep) dep =>
        visit_dependents st (st.graph.edges.length + 1) dep.source va.1 va.2)
          (v, a) := by
    intro l
    induction l with
    | nil => intro v a; rfl
    | cons dep l ihl =>
        intro v a
        rw [List.foldl_cons, List.foldl_cons]
        have hrl := remL_le st.graph.edges v
        have heq : visit_dependents st fuel dep.source v a
            = visit_dependents st (st.graph.edges.length + 1) dep.source v a :=
          visit_stable st st.graph.edges.length fuel _ dep.source v a hrl
            (by omega) (by omega)
        rw [heq]
        exact ihl _ _
  have hstab : get_impact_analysis_fuel fuel st p = get_impact_analysis st p := by
    simp only [get_impact_analysis, get_impact_analysis_fuel]
    rw [hfold]
  have hfoldinv : ∀ (l : List Dependent) (v : List String) (a : List TransDep),
      goodState [p] v a →
      goodState [p]
        (l.foldl (fun (va : List String × List TransDep) dep =>
          visit_dependents st (st.graph.edges.length + 1) dep.source va.1 va.2)
          (v, a)).1
        (l.foldl (fun (va : List String × List TransDep) dep =>
          visit_dependents st (st.graph.edges.length + 1) dep.source va.1 va.2)
          (v, a)).2 := by
    intro l
    induction l with
    | nil => intro v a hg; exact hg
    | cons dep l ihl =>
        intro v a hg
        rw [List.foldl_cons]
        exact ihl _ _
          ((visit_inv st [p] (st.graph.edges.length + 1)).1 dep.source v a hg)
  have hinit : goodState [p] [p] ([] : List TransDep) := by
    refine ⟨?_, ?_, ?_, ?_⟩
    · intro t ht; cases ht
    · exact List.nodup_nil
    · intro t ht; cases ht
    · intro x hx; exact hx
  have htd : (get_impact_analysis st p).transitive_dependents
      = ((get_dependents st p).foldl (fun (va : List String × List TransDep) dep =>
          visit_dependents st (st.graph.edges.length + 1) dep.source va.1 va.2)
          ([p], [])).2 := rfl
  have hgood := hfoldinv (get_dependents st p) [p] [] hinit
  refine ⟨hstab, ?_, ?_, rfl⟩
  · rw [htd]
    exact hgood.2.1
  · intro t ht
    rw [htd] at ht
    have := hgood.2.2.1 t ht
    intro hsrc
    exact this (hsrc ▸ List.mem_singleton.mpr rfl)

/-- C6 witness: the three-file import cycle, with surplus fuel. -/
theorem impact_analysis_terminating_nodup_witness :
    get_impact_analysis_fuel 10 stW6 "a.py" = get_impact_analysis stW6 "a.py"
    ∧ ((get_impact_analysis stW6 "a.py").transitive_dependents.map
        TransDep.source).Nodup
    ∧ (∀ t ∈ (get_impact_analysis stW6 "a.py").transitive_dependents,
        t.source ≠ "a.py")
    ∧ (get_impact_analysis stW6 "a.py").total_impact_count
        = (get_impact_analysis stW6 "a.py").direct_dependents.length
          + (get_impact_analysis stW6 "a.py").transitive_dependents.length :=
  impact_analysis_terminating_nodup stW6 "a.py" 10 (by decide)

end DevChat
